import Mathlib

/-!
Verification of the session-lifecycle and orchestration core of
`casewise-claude-coordination-mcp` against its natural-language specification.

The Python source is shallowly embedded: pure functions become Lean functions,
the orchestrator's stateful callback handling becomes explicit state passing
over an event trace, Python `int` becomes `Int`, Python exceptions become
`Except`/`Option` results.  Python `datetime` values are identified with their
ISO-8601 renderings (a bijection), and both are modelled as `Int` epoch
seconds so that `isoformat`/`fromisoformat` are identities and timestamp
subtraction is integer subtraction.  Free-form JSON payload fields that the
code only carries around verbatim (`input_spec`, `output_spec`, message
metadata, per-session snapshots) are modelled as opaque `String`s.
-/

/-! ## Task graph model (`orchestrator/task_distribution.py`) -/

/-- `TaskDefinition` dataclass: name, component, description, dependencies,
priority, estimated_minutes, required_skills. -/
structure TaskDefinition where
  name : String
  component : String
  description : String
  dependencies : List String
  priority : Int
  estimated_minutes : Int
  required_skills : List String
deriving DecidableEq

/-- The list of task names, `[task.name for task in tasks]`. -/
def taskNames (tasks : List TaskDefinition) : List String :=
  tasks.map TaskDefinition.name

/-- `task_map = {task.name: task for task in tasks}` — a Python dict
comprehension in which a later binding of the same key overwrites an earlier
one, hence the *last* task with a given name wins. -/
def taskMap (tasks : List TaskDefinition) (n : String) : Option TaskDefinition :=
  (tasks.filter (fun t => t.name == n)).getLast?

/-- `dep_graph = {task.name: task.dependencies for task in tasks}` with
`dep_graph.get(name, [])` lookup (same last-binding-wins dict semantics as
`taskMap`). -/
def depGraph (tasks : List TaskDefinition) (n : String) : List String :=
  match taskMap tasks n with
  | some t => t.dependencies
  | none => []

/-- `can_execute(task_name)`: all of the task's dependencies are already in
`completed`. -/
def canExecute (tasks : List TaskDefinition) (completed : List String) (n : String) : Bool :=
  (depGraph tasks n).all (fun d => completed.contains d)

/-- The `while remaining:` phase-construction loop of `analyze_dependencies`.
Each iteration moves every currently executable task of `remaining` into a new
phase and appends the phase to `completed`; if no task can be placed it raises
(`.error` carrying the `remaining` set interpolated into the message).

The loop is embedded with explicit fuel so that it is structurally recursive
and computable by `decide`/`rfl`; callers pass `fuel = remaining.length`,
which suffices because every successful iteration strictly shrinks
`remaining`, so the `fuel = 0` fallback branch is unreachable. -/
def computePhasesAux (tasks : List TaskDefinition) :
    Nat → List String → List String → Except (List String) (List (List String))
  | fuel, remaining, completed =>
    if remaining.isEmpty then .ok []
    else if (remaining.filter (canExecute tasks completed)).isEmpty then .error remaining
    else
      match fuel with
      | 0 => .error remaining
      | fuel' + 1 =>
        match computePhasesAux tasks fuel'
            (remaining.filter (fun n => !(canExecute tasks completed n)))
            (completed ++ remaining.filter (canExecute tasks completed)) with
        | .ok rest => .ok (remaining.filter (canExecute tasks completed) :: rest)
        | .error e => .error e

/-- Phase construction started from `remaining = set(task.name for task in tasks)`
(modelled as `dedup`, which has the same membership) and `completed = set()`. -/
def computePhases (tasks : List TaskDefinition) : Except (List String) (List (List String)) :=
  computePhasesAux tasks (taskNames tasks).dedup.length (taskNames tasks).dedup []

/-- The record returned by `analyze_dependencies`: `phases`, `total_phases`,
`parallelism`, and the `critical_path` computed by `_find_critical_path`. -/
structure DependencyAnalysis where
  phases : List (List String)
  total_phases : Nat
  parallelism : List Nat
  critical_path : List String
deriving DecidableEq

/-- A raised Python exception: the exception class name and the task names
interpolated into its message — the `remaining` set for the cycle error
(`f"Circular dependency detected in tasks: {remaining}"`), the missing key
for a `KeyError`, and empty for `max()` over an empty sequence. -/
structure PyError where
  exnClass : String
  remainingTasks : List String
deriving DecidableEq

/-- Python `max(list)`; raises on the empty list, which cannot occur where it
is called (every phase is nonempty, and the forward pass takes this branch
only on a nonempty dependency list), so the `[]` case is arbitrary. -/
def pyListMax : List Int → Int
  | [] => 0
  | x :: xs => xs.foldl max x

/-- Python `dict.get(key, default)` over a dict built by successive
assignments, modelled as an appended association list: the *last* assignment
of a key wins. -/
def lookupD (l : List (String × Int)) (k : String) (d : Int) : Int :=
  match (l.filter (fun p => p.1 == k)).getLast? with
  | some p => p.2
  | none => d

/-- Fuel bound for the recursive `visit` of `_find_critical_path`: more than
the number of names that can ever become visited (every visitable name is a
task name or a declared dependency). -/
def visitFuel (tasks : List TaskDefinition) : Nat :=
  tasks.length + (tasks.map (fun t => t.dependencies.length)).sum + 1

/-- The recursive `visit(name)` of `_find_critical_path`, over the state
`(visited, order)`: an already-visited name returns immediately; otherwise
the name is marked visited, its dependencies are visited depth-first, and
the name is appended to the postorder.  Python's recursion needs no fuel
because the visited-set guard bounds it; here a call chain of unvisited
names adds one distinct name to `visited` per level, so `visitFuel tasks`
strictly exceeds every reachable chain depth and the fuel-exhaustion branch
(which, like Python, leaves the state unchanged for a visited name) is never
taken on an unvisited name when started with `visitFuel tasks`. -/
def visitAux (g : String → List String) :
    Nat → String → List String × List String → List String × List String
  | 0, _, st => st
  | fuel + 1, name, st =>
    if st.1.contains name then st
    else
      Prod.map id (fun order => order ++ [name])
        ((g name).foldl (fun acc dep => visitAux g fuel dep acc) (st.1 ++ [name], st.2))

/-- The DFS postorder built by `for task in tasks: visit(task.name)`. -/
def dfsOrder (tasks : List TaskDefinition) : List String :=
  (tasks.foldl
    (fun st task => visitAux (depGraph tasks) (visitFuel tasks) task.name st)
    ([], [])).2

/-- The forward pass of `_find_critical_path` over the postorder:
`earliest_start[name] = 0` (no deps) or the max of the dependencies'
`earliest_finish.get(dep, 0)`, and
`earliest_finish[name] = earliest_start[name] + task.estimated_minutes`.
The `task_map[name]` dict access raises `KeyError` when a visited name is
not a task name (possible only when some dependency names a missing task,
a situation in which `analyze_dependencies` has already raised in the phase
loop). -/
def forwardPass (tasks : List TaskDefinition) (g : String → List String) :
    List String → List (String × Int) × List (String × Int) →
    Except PyError (List (String × Int) × List (String × Int))
  | [], maps => .ok maps
  | name :: rest, (es, ef) =>
    match taskMap tasks name with
    | none => .error ⟨"KeyError", [name]⟩
    | some task =>
      let start := if (g name).isEmpty then 0
        else pyListMax ((g name).map (fun dep => lookupD ef dep 0))
      forwardPass tasks g rest
        (es ++ [(name, start)], ef ++ [(name, start + task.estimated_minutes)])

/-- `max(end_times, key=lambda x: x[1])`: the first pair with maximal second
component; `none` models the `ValueError: max() arg is an empty sequence`
raised on the empty list. -/
def pyMaxBySnd : List (String × Int) → Option (String × Int)
  | [] => none
  | x :: xs => some (xs.foldl (fun best p => if best.2 < p.2 then p else best) x)

/-- The critical-path trace-back loop of `_find_critical_path`: append the
current name, stop if it has no dependencies, otherwise step to the first
dependency whose `earliest_finish` equals the current name's
`earliest_start` (or stop when none matches, `current = None`).  Python's
`while current:` is falsy for both `None` and the empty string.  The loop is
reached only after the phase loop succeeded, where the dependency relation
is acyclic, so the walk visits pairwise-distinct names and a fuel of
`tasks.length + 1` is never exhausted. -/
def traceBack (g : String → List String) (es ef : List (String × Int)) :
    Nat → Option String → List String → List String
  | _, none, acc => acc
  | _, some "", acc => acc
  | 0, some _, acc => acc
  | fuel + 1, some current, acc =>
    if (g current).isEmpty then acc ++ [current]
    else
      traceBack g es ef fuel
        ((g current).find? (fun dep => lookupD ef dep 0 == lookupD es current 0))
        (acc ++ [current])

/-- `TaskDistributor._find_critical_path`: DFS postorder, forward pass,
selection of the latest-finishing task, and trace-back, returning the
reversed path.  The `end_times` entry `earliest_finish[name]` is a dict
access whose key is always present once the forward pass has returned
(every postorder name was assigned), so the `lookupD … 0` default never
applies there. -/
def find_critical_path (tasks : List TaskDefinition) : Except PyError (List String) :=
  match forwardPass tasks (depGraph tasks) (dfsOrder tasks) ([], []) with
  | .error e => .error e
  | .ok (es, ef) =>
    match pyMaxBySnd ((dfsOrder tasks).map (fun name => (name, lookupD ef name 0))) with
    | none => .error ⟨"ValueError", []⟩
    | some critical_end =>
      .ok (traceBack (depGraph tasks) es ef (tasks.length + 1)
        (some critical_end.1) []).reverse

/-- `TaskDistributor.analyze_dependencies`: builds execution phases by layered
topological sort, raising `ValueError` on a circular dependency, and then
evaluates `_find_critical_path` while building the returned dict — so an
exception raised there (notably `max()` over an empty sequence when the task
list is empty) propagates and no phase list is returned. -/
def analyze_dependencies (tasks : List TaskDefinition) : Except PyError DependencyAnalysis :=
  match computePhases tasks with
  | .error remaining => .error ⟨"ValueError", remaining⟩
  | .ok phases =>
    match find_critical_path tasks with
    | .error e => .error e
    | .ok cp => .ok ⟨phases, phases.length, phases.map List.length, cp⟩

/-- `sorted(phase_tasks, key=lambda t: t.priority, reverse=True)` — a stable
descending sort by priority. -/
def sortByPriorityDesc (l : List TaskDefinition) : List TaskDefinition :=
  l.mergeSort (fun a b => decide (b.priority ≤ a.priority))

/-- `_create_task_prompt`: deterministic string formatting of one prompt per
task.  The literal template text (role guidelines etc.) is abbreviated here —
prompt/template wording is explicitly outside the spec's scope and no claim
depends on the text, only on the one-prompt-per-task shape. -/
def createTaskPrompt (task : TaskDefinition) : String :=
  let base :=
    "You are a " ++ task.component ++ " specialist working on the " ++ task.name ++
      " component.\n\nTask: " ++ task.description ++
      "\n\nRequirements: best practices for " ++ String.intercalate ", " task.required_skills ++ "\n"
  let withDeps :=
    if task.dependencies.isEmpty then base
    else base ++ "\nDependencies:\nThis task depends on: " ++
      String.intercalate ", " task.dependencies ++ "\n"
  let withGuidelines :=
    withDeps ++
      (if task.component == "frontend" then "Frontend Guidelines\n"
       else if task.component == "backend" then "Backend Guidelines\n"
       else if task.component == "testing" then "Testing Guidelines\n"
       else "")
  withGuidelines ++ "\nEstimated time: " ++ toString task.estimated_minutes ++
    " minutes\n\nBegin implementation now."

/-- The `while remaining:` chunking loop of `distribute_tasks`: repeatedly
take `remaining[:max_parallel]` as a batch.  Fuel-structural for
computability; callers pass `fuel = l.length`, which suffices whenever
`1 ≤ k` (for `k = 0` the Python loop never terminates — `remaining[0:]`
never shrinks — so the claims all assume `1 ≤ max_parallel`). -/
def chunksAux (k : Nat) : Nat → List α → List (List α)
  | _, [] => []
  | 0, _ :: _ => []
  | fuel + 1, x :: xs => ((x :: xs).take k) :: chunksAux k fuel ((x :: xs).drop k)

/-- Chunks of size `k` (exact for `1 ≤ k`, see `chunksAux`). -/
def pyChunks (k : Nat) (l : List α) : List (List α) :=
  chunksAux k l.length l

/-- Batches produced for one phase by `distribute_tasks`: the first
`max_parallel` (task, prompt) pairs form a batch (appended only if nonempty),
and the remaining pairs are chunked `max_parallel` at a time. -/
def phaseBatches (max_parallel : Nat) (pairs : List (TaskDefinition × String)) :
    List (List (TaskDefinition × String)) :=
  (if (pairs.take max_parallel).isEmpty then [] else [pairs.take max_parallel]) ++
    pyChunks max_parallel (pairs.drop max_parallel)

/-- `TaskDistributor.distribute_tasks`: analyze dependencies, then for each
phase sort its tasks by descending priority, pair each with its prompt, and
batch them `max_parallel` at a time.  The `ValueError` of
`analyze_dependencies` propagates. -/
def distribute_tasks (tasks : List TaskDefinition) (max_parallel : Nat) :
    Except PyError (List (List (TaskDefinition × String))) :=
  match analyze_dependencies tasks with
  | .error e => .error e
  | .ok analysis =>
    .ok ((analysis.phases.map (fun phase =>
      let phase_tasks := sortByPriorityDesc (phase.filterMap (taskMap tasks))
      phaseBatches max_parallel (phase_tasks.map (fun t => (t, createTaskPrompt t))))).flatten)

/-- `task_map[name].estimated_minutes` (lookup of a name that is always
present at the call sites; `0` stands in for the impossible `KeyError`). -/
def estMinutes (tasks : List TaskDefinition) (n : String) : Int :=
  match taskMap tasks n with
  | some t => t.estimated_minutes
  | none => 0

/-- Result of `estimate_total_time`.  The `speedup_factor` field performs
floating-point division and no claim refers to it; it is not modelled. -/
structure TimeEstimate where
  parallel_execution_minutes : Int
  sequential_execution_minutes : Int
  time_saved_minutes : Int
deriving DecidableEq

/-- `TaskDistributor.estimate_total_time`: per-phase maxima summed for the
parallel estimate, plain sum for the sequential estimate. -/
def estimate_total_time (tasks : List TaskDefinition) : Except PyError TimeEstimate :=
  match analyze_dependencies tasks with
  | .error e => .error e
  | .ok analysis =>
    let phase_times := analysis.phases.map (fun phase => pyListMax (phase.map (estMinutes tasks)))
    let total_parallel := phase_times.sum
    let total_sequential := (tasks.map TaskDefinition.estimated_minutes).sum
    .ok ⟨total_parallel, total_sequential, total_sequential - total_parallel⟩

/-- Every declared dependency names a task of the set. -/
def DepsClosed (tasks : List TaskDefinition) : Prop :=
  ∀ t ∈ tasks, ∀ d ∈ t.dependencies, d ∈ taskNames tasks

instance (tasks : List TaskDefinition) : Decidable (DepsClosed tasks) := by
  unfold DepsClosed; infer_instance

/-- Acyclicity of the dependency relation, in its standard finite form: every
nonempty subset of the task names contains a task none of whose dependencies
lie in the subset.  For a finite relation this is equivalent to the absence
of a dependency cycle (see `IsDepCycle_not_acyclic`), and it is decidable, so
concrete witnesses can discharge it by `decide`. -/
def Acyclic (tasks : List TaskDefinition) : Prop :=
  ∀ S ∈ (taskNames tasks).toFinset.powerset, S.Nonempty →
    ∃ n ∈ S, ∀ d ∈ depGraph tasks n, d ∉ S

instance (tasks : List TaskDefinition) : Decidable (Acyclic tasks) := by
  unfold Acyclic; infer_instance

/-- A dependency cycle: a nonempty list of names each of which has the next
as one of its dependencies, wrapping around from the last back to the head. -/
def IsDepCycle (tasks : List TaskDefinition) : List String → Prop
  | [] => False
  | h :: t => List.Chain (fun a b => b ∈ depGraph tasks a) h (t ++ [h])


/-! ## Session state machine (`session/session_state.py`) -/

/-- The `SessionStatus` enum. -/
inductive SessionStatus where
  | pending
  | starting
  | running
  | completed
  | failed
  | terminated
  | retry
deriving DecidableEq

/-- `status.value` — the string payload of each enum member. -/
def SessionStatus.value : SessionStatus → String
  | .pending => "pending"
  | .starting => "starting"
  | .running => "running"
  | .completed => "completed"
  | .failed => "failed"
  | .terminated => "terminated"
  | .retry => "retry"

/-- `SessionStatus(s)` — enum lookup by value; `none` models the `ValueError`
raised on an unknown value. -/
def sessionStatusOfValue (s : String) : Option SessionStatus :=
  if s == "pending" then some .pending
  else if s == "starting" then some .starting
  else if s == "running" then some .running
  else if s == "completed" then some .completed
  else if s == "failed" then some .failed
  else if s == "terminated" then some .terminated
  else if s == "retry" then some .retry
  else none

/-- One entry of `SessionState.messages` as built by `add_message`
(timestamp, type, content; the free-form `metadata` dict is carried as an
opaque string). -/
structure SessionMessage where
  timestamp : Int
  mtype : String
  content : String
  metadata : String
deriving DecidableEq

/-- The `SessionState` dataclass.  Timestamps are `Int` epoch values
(identified with their ISO renderings, see the file header); `workspace` is
the path string; `input_spec`/`output_spec` are opaque JSON payloads;
`execution_time_seconds` is carried verbatim by serialization, so its exact
numeric type is immaterial and it is modelled as `Int`. -/
structure SessionState where
  session_id : String
  task_name : String
  component : String
  status : SessionStatus
  workspace : String
  created_at : Int
  started_at : Option Int
  completed_at : Option Int
  pid : Option Int
  task_description : String
  input_spec : String
  output_spec : String
  progress_percent : Int
  current_activity : String
  files_created : List String
  files_modified : List String
  error_count : Int
  last_error : Option String
  retry_count : Int
  max_retries : Int
  messages : List SessionMessage
  notifications : List String
  tokens_used : Int
  execution_time_seconds : Int
deriving DecidableEq

/-- `add_message(message_type, content, metadata)`: appends a timestamped
message record (`now` injects `datetime.now()`). -/
def SessionState.add_message (now : Int) (mtype content metadata : String)
    (s : SessionState) : SessionState :=
  { s with messages := s.messages ++ [⟨now, mtype, content, metadata⟩] }

/-- `update_progress(percent, activity)`: clamps the percentage into
`[0, 100]`, sets the activity, and logs a progress message. -/
def SessionState.update_progress (now : Int) (percent : Int) (activity : String)
    (s : SessionState) : SessionState :=
  let s1 := { s with progress_percent := min 100 (max 0 percent), current_activity := activity }
  s1.add_message now "progress" (activity ++ " (" ++ toString percent ++ "%)") ""

/-- `mark_started()`: unconditionally sets status RUNNING and stamps
`started_at`. -/
def SessionState.mark_started (now : Int) (s : SessionState) : SessionState :=
  let s1 := { s with status := SessionStatus.running, started_at := some now }
  s1.add_message now "lifecycle" "Session started" ""

/-- `mark_completed(success)`: unconditionally sets status COMPLETED/FAILED,
stamps `completed_at`, and fixes `execution_time_seconds` when `started_at`
is set. -/
def SessionState.mark_completed (success : Bool) (now : Int) (s : SessionState) : SessionState :=
  let s1 := { s with
    status := if success then SessionStatus.completed else SessionStatus.failed,
    completed_at := some now }
  let s2 := match s1.started_at with
    | some t => { s1 with execution_time_seconds := now - t }
    | none => s1
  s2.add_message now "lifecycle" (if success then "Session completed" else "Session failed") ""

/-- `should_retry()`: FAILED, retry budget left, and at least one error
recorded. -/
def SessionState.should_retry (s : SessionState) : Bool :=
  decide (s.status = SessionStatus.failed) &&
    decide (s.retry_count < s.max_retries) &&
    decide (s.error_count > 0)

/-- The dictionary produced by `SessionState.to_dict` — one field per key it
writes.  Note that `max_retries` is *not* among them. -/
structure SessionStateDict where
  session_id : String
  task_name : String
  component : String
  status : String
  workspace : String
  created_at : Int
  started_at : Option Int
  completed_at : Option Int
  pid : Option Int
  task_description : String
  input_spec : String
  output_spec : String
  progress_percent : Int
  current_activity : String
  files_created : List String
  files_modified : List String
  error_count : Int
  last_error : Option String
  retry_count : Int
  messages : List SessionMessage
  notifications : List String
  tokens_used : Int
  execution_time_seconds : Int
deriving DecidableEq

/-- `SessionState.to_dict`. -/
def SessionState.to_dict (s : SessionState) : SessionStateDict :=
  { session_id := s.session_id
    task_name := s.task_name
    component := s.component
    status := s.status.value
    workspace := s.workspace
    created_at := s.created_at
    started_at := s.started_at
    completed_at := s.completed_at
    pid := s.pid
    task_description := s.task_description
    input_spec := s.input_spec
    output_spec := s.output_spec
    progress_percent := s.progress_percent
    current_activity := s.current_activity
    files_created := s.files_created
    files_modified := s.files_modified
    error_count := s.error_count
    last_error := s.last_error
    retry_count := s.retry_count
    messages := s.messages
    notifications := s.notifications
    tokens_used := s.tokens_used
    execution_time_seconds := s.execution_time_seconds }

/-- `SessionState.from_dict`: parses the status string (raising on an unknown
value, modelled as `none`), keeps only dataclass fields, and constructs the
dataclass — fields absent from the dict, in particular `max_retries`, take
their dataclass defaults (`max_retries = 3`). -/
def SessionState.from_dict (d : SessionStateDict) : Option SessionState :=
  match sessionStatusOfValue d.status with
  | none => none
  | some st =>
    some
      { session_id := d.session_id
        task_name := d.task_name
        component := d.component
        status := st
        workspace := d.workspace
        created_at := d.created_at
        started_at := d.started_at
        completed_at := d.completed_at
        pid := d.pid
        task_description := d.task_description
        input_spec := d.input_spec
        output_spec := d.output_spec
        progress_percent := d.progress_percent
        current_activity := d.current_activity
        files_created := d.files_created
        files_modified := d.files_modified
        error_count := d.error_count
        last_error := d.last_error
        retry_count := d.retry_count
        max_retries := 3
        messages := d.messages
        notifications := d.notifications
        tokens_used := d.tokens_used
        execution_time_seconds := d.execution_time_seconds }

/-! ## Session runner state effects (`session/claude_session.py`) -/

/-- `ClaudeSession.start(task_prompt, input_data)`: records prompt and input,
moves to STARTING, and on a successful process launch records the pid and
calls `mark_started` (PENDING→STARTING→RUNNING); if the launch throws it
moves to FAILED with `last_error` set and `error_count` incremented, and
returns `false`.  `launchOk`, `pid`, `now` and `errMsg` inject the
process-spawning environment. -/
def sessionStart (launchOk : Bool) (pid : Int) (now : Int) (errMsg : String)
    (task_prompt : String) (input_data : String) (s : SessionState) :
    SessionState × Bool :=
  let s1 := { s with
    task_description := task_prompt,
    input_spec := input_data,
    status := SessionStatus.starting }
  if launchOk then
    let s2 := { s1 with pid := some pid }
    (s2.mark_started now, true)
  else
    ({ s1 with
        status := SessionStatus.failed,
        last_error := some errMsg,
        error_count := s1.error_count + 1 }, false)

/-- The tail of `ClaudeSession._monitor_session` after the process exits:
`mark_completed(exit_code == 0)`, and on failure `last_error` describes the
exit code and `error_count` is incremented. -/
def monitorExit (exit_code : Int) (now : Int) (s : SessionState) : SessionState :=
  let success := exit_code == 0
  let s1 := s.mark_completed success now
  if success then s1
  else { s1 with
    last_error := some ("Process exited with code " ++ toString exit_code),
    error_count := s1.error_count + 1 }

/-- `ClaudeSession.terminate(force)`: whenever a process was launched
(`self.process` is set) the session state unconditionally becomes TERMINATED,
whatever its current status; with no process the method is a no-op.  The
kill/wait process plumbing is I/O with no further state effect. -/
def sessionTerminate (hasProcess : Bool) (s : SessionState) : SessionState :=
  if hasProcess then { s with status := SessionStatus.terminated } else s

/-! ## Orchestrator state (`state/orchestrator_state.py`) -/

/-- The `OrchestratorState` dataclass.  `session_states` maps session ids to
their snapshot dicts, carried verbatim by serialization and modelled
opaquely; `workflow_history`/`important_events` hold free-form dicts,
likewise opaque. -/
structure OrchestratorState where
  orchestrator_id : String
  workspace_root : String
  started_at : Int
  active_sessions : List String
  completed_sessions : List String
  failed_sessions : List String
  session_states : List (String × String)
  current_workflow : Option String
  workflow_history : List String
  total_sessions_created : Int
  total_tasks_completed : Int
  total_tasks_failed : Int
  error_count : Int
  notifications : List String
  important_events : List String
deriving DecidableEq

/-- Python `l[-n:]`: the last `n` elements (all of them when `l` is shorter). -/
def lastN (n : Nat) (l : List α) : List α :=
  l.drop (l.length - n)

/-- The dictionary written by `OrchestratorState.to_dict` (same keys as the
dataclass fields — every field is serialized, the two logs truncated). -/
structure OrchestratorStateDict where
  orchestrator_id : String
  workspace_root : String
  started_at : Int
  active_sessions : List String
  completed_sessions : List String
  failed_sessions : List String
  session_states : List (String × String)
  current_workflow : Option String
  workflow_history : List String
  total_sessions_created : Int
  total_tasks_completed : Int
  total_tasks_failed : Int
  error_count : Int
  notifications : List String
  important_events : List String
deriving DecidableEq

/-- `OrchestratorState.to_dict`: all fields, with `notifications[-100:]` and
`important_events[-50:]`. -/
def OrchestratorState.to_dict (o : OrchestratorState) : OrchestratorStateDict :=
  { orchestrator_id := o.orchestrator_id
    workspace_root := o.workspace_root
    started_at := o.started_at
    active_sessions := o.active_sessions
    completed_sessions := o.completed_sessions
    failed_sessions := o.failed_sessions
    session_states := o.session_states
    current_workflow := o.current_workflow
    workflow_history := o.workflow_history
    total_sessions_created := o.total_sessions_created
    total_tasks_completed := o.total_tasks_completed
    total_tasks_failed := o.total_tasks_failed
    error_count := o.error_count
    notifications := lastN 100 o.notifications
    important_events := lastN 50 o.important_events }

/-- `OrchestratorState.from_dict`: parses the timestamp and path (identities
in this model) and rebuilds the dataclass from the dict fields. -/
def OrchestratorState.from_dict (d : OrchestratorStateDict) : OrchestratorState :=
  { orchestrator_id := d.orchestrator_id
    workspace_root := d.workspace_root
    started_at := d.started_at
    active_sessions := d.active_sessions
    completed_sessions := d.completed_sessions
    failed_sessions := d.failed_sessions
    session_states := d.session_states
    current_workflow := d.current_workflow
    workflow_history := d.workflow_history
    total_sessions_created := d.total_sessions_created
    total_tasks_completed := d.total_tasks_completed
    total_tasks_failed := d.total_tasks_failed
    error_count := d.error_count
    notifications := d.notifications
    important_events := d.important_events }

/-! ## Orchestrator (`orchestrator/session_orchestrator.py`) -/

/-- Which internal handler `_on_session_state_change` dispatches to for a
given callback state. -/
inductive OrchestratorHandler where
  | handleCompletion
  | retrySession
  | noAction
deriving DecidableEq

/-- `SessionOrchestrator._on_session_state_change`, faithfully including its
branch structure: the first `if` catches status COMPLETED *and* FAILED and
dispatches to `_handle_session_completion`; the retry branch is an `elif`
that also requires status FAILED, so it sits in the shadow of the first
branch. -/
def onSessionStateChange (s : SessionState) : OrchestratorHandler :=
  if s.status = SessionStatus.completed ∨ s.status = SessionStatus.failed then
    OrchestratorHandler.handleCompletion
  else if s.status = SessionStatus.failed ∧ s.should_retry = true then
    OrchestratorHandler.retrySession
  else
    OrchestratorHandler.noAction

/-- Python `str(x)` on an `Optional[str]` (an absent error prints `None`). -/
def pyStrOfOption : Option String → String
  | none => "None"
  | some s => s

/-- The prompt `_retry_session` would submit: the retry attempt number, the
prior error, and the original task prompt. -/
def retryPrompt (retry_count : Int) (last_error : Option String) (task_prompt : String) : String :=
  "[RETRY ATTEMPT " ++ toString retry_count ++ "]\nPrevious error: " ++
    pyStrOfOption last_error ++ "\n\nOriginal task:\n" ++ task_prompt

/-- `f"{counter:03d}"` zero-padding. -/
def pad3 (n : Nat) : String :=
  let s := toString n
  String.mk (List.replicate (3 - s.length) '0') ++ s

/-- The session id generated by `create_session`:
`f"ccc-{task_name}-{component}-{self.session_counter:03d}"`. -/
def sessionIdFor (task_name component : String) (counter : Nat) : String :=
  "ccc-" ++ task_name ++ "-" ++ component ++ "-" ++ pad3 counter

/-- The orchestrator's aggregate session-tracking state: the session counter,
the keys of the `self.sessions` dict, and the three id lists of
`OrchestratorState` that `create_session` / `_handle_session_completion`
mutate. -/
structure OrchTracking where
  sessionCounter : Nat
  knownSessions : List String
  active : List String
  completedIds : List String
  failedIds : List String
deriving DecidableEq

/-- The events that drive the aggregate state: a `create_session` call, or a
terminal state-change callback (status COMPLETED on `success = true`, FAILED
on `success = false`) reaching `_handle_session_completion`. -/
inductive OrchEvent where
  | create (task_name component : String)
  | terminal (session_id : String) (success : Bool)
deriving DecidableEq

/-- Fresh orchestrator tracking state (counter 0, all collections empty). -/
def initOrch : OrchTracking :=
  ⟨0, [], [], [], []⟩

/-- One event's effect on the aggregate state.  `create_session` increments
the counter, stores the session, and appends the new id to
`active_sessions`; `_handle_session_completion` appends the id to
`completed_sessions` or `failed_sessions` — and removes it from nothing. -/
def stepOrch (st : OrchTracking) : OrchEvent → OrchTracking
  | .create task_name component =>
    let c := st.sessionCounter + 1
    let sid := sessionIdFor task_name component c
    { st with
      sessionCounter := c,
      knownSessions := st.knownSessions ++ [sid],
      active := st.active ++ [sid] }
  | .terminal sid success =>
    if success then { st with completedIds := st.completedIds ++ [sid] }
    else { st with failedIds := st.failedIds ++ [sid] }

/-- Replay of an event sequence from a given tracking state. -/
def runOrch : OrchTracking → List OrchEvent → OrchTracking
  | st, [] => st
  | st, e :: rest => runOrch (stepOrch st e) rest

/-- The session id of a terminal event. -/
def termSid : OrchEvent → Option String
  | .terminal sid _ => some sid
  | .create _ _ => none

/-- The session id of a terminal event with the given success flag. -/
def termOf (b : Bool) : OrchEvent → Option String
  | .terminal sid b' => if b' == b then some sid else none
  | .create _ _ => none

/-- Trace admissibility, part 1: every terminal callback names a session that
exists at that point (callbacks are registered only on sessions the
orchestrator created). -/
def validAux (st : OrchTracking) : List OrchEvent → Bool
  | [] => true
  | e :: rest =>
    match e with
    | .create _ _ => validAux (stepOrch st e) rest
    | .terminal sid _ => st.knownSessions.contains sid && validAux (stepOrch st e) rest

/-- An admissible callback trace: terminal callbacks name known sessions, and
each session terminates at most once (the monitor loop calls
`mark_completed` exactly once per attempt). -/
def ValidTrace (events : List OrchEvent) : Prop :=
  validAux initOrch events = true ∧ (events.filterMap termSid).Nodup

instance (events : List OrchEvent) : Decidable (ValidTrace events) := by
  unfold ValidTrace; infer_instance

/-- The result dict built by `_execute_task`: session id, success flag, files,
duration, workspace, and — only on failure — the session's last error. -/
structure ExecResult where
  session_id : String
  success : Bool
  files_created : List String
  execution_time : Int
  workspace : String
  error : Option String
deriving DecidableEq

/-- What collecting one task's result in `execute_workflow` can observe:
`_execute_task` returned a result dict, or `future.result(...)` raised. -/
inductive TaskOutcome where
  | returned (r : ExecResult)
  | raised (msg : String)
deriving DecidableEq

/-- A per-task entry of `results["tasks"]`: the result dict, or the
`{"error": str(e)}` entry recorded for a raised exception. -/
inductive RecordedTask where
  | result (r : ExecResult)
  | exnEntry (msg : String)
deriving DecidableEq

/-- Whether a recorded per-task entry reports success. -/
def recordedSuccess : RecordedTask → Bool
  | .result r => r.success
  | .exnEntry _ => false

/-- The workflow result: name, per-task entries in collection order, and the
aggregate success flag.  The wall-clock fields (`started_at`,
`completed_at`, `duration_seconds`) are real-time observations no claim
refers to; they are not modelled. -/
structure WorkflowResult where
  workflow : String
  taskResults : List (String × RecordedTask)
  success : Bool
deriving DecidableEq

/-- The sequential branch of `execute_workflow`: tasks run in order, each
result is recorded, and the loop breaks with `success = False` at the first
result whose `success` is falsy.  An exception inside `_execute_task` is not
caught in this branch and propagates out of `execute_workflow`. -/
def seqLoop (workflow_name : String) :
    List (String × TaskOutcome) → List (String × RecordedTask) → Except String WorkflowResult
  | [], acc => .ok ⟨workflow_name, acc, true⟩
  | (_, .raised msg) :: _, _ => .error msg
  | (n, .returned r) :: rest, acc =>
    if r.success then seqLoop workflow_name rest (acc ++ [(n, .result r)])
    else .ok ⟨workflow_name, acc ++ [(n, .result r)], false⟩

/-- `SessionOrchestrator.execute_workflow` over the per-task outcomes `runs`
(the scheduling itself is thread-pool I/O; what the claims concern is how
the per-task outcomes are aggregated).  In the parallel branch every task's
entry is recorded, and `results["success"]` is cleared only when collecting
a result raises — a returned result dict never touches the flag.  In the
sequential branch the loop is fail-fast on a falsy `success`. -/
def execute_workflow (workflow_name : String) (runs : List (String × TaskOutcome))
    (parallel : Bool) : Except String WorkflowResult :=
  if parallel then
    .ok ⟨workflow_name,
      runs.map (fun p =>
        (p.1, match p.2 with
          | .returned r => RecordedTask.result r
          | .raised msg => RecordedTask.exnEntry msg)),
      runs.all (fun p => match p.2 with
        | .returned _ => true
        | .raised _ => false)⟩
  else
    seqLoop workflow_name runs []

/-! ## Concrete exemplar states -/

/-- A concrete session state that has reached COMPLETED. -/
def exCompletedState : SessionState :=
  { session_id := "ccc-api-backend-001"
    task_name := "api"
    component := "backend"
    status := SessionStatus.completed
    workspace := "ws"
    created_at := 0
    started_at := some 1
    completed_at := some 2
    pid := some 42
    task_description := "Task"
    input_spec := ""
    output_spec := ""
    progress_percent := 100
    current_activity := "Done"
    files_created := []
    files_modified := []
    error_count := 0
    last_error := none
    retry_count := 0
    max_retries := 3
    messages := []
    notifications := []
    tokens_used := 0
    execution_time_seconds := 1 }

/-- A concrete FAILED session state with one recorded error and an unspent
retry budget (worker exited with code 1), as delivered to the orchestrator's
state-change callback. -/
def exFailedState : SessionState :=
  { exCompletedState with
    status := SessionStatus.failed
    error_count := 1
    last_error := some "Process exited with code 1" }

/-- A concrete session state carrying a non-default retry budget. -/
def exBudgetState : SessionState :=
  { exCompletedState with max_retries := 5 }

/-- A concrete failed task result as `_execute_task` returns it. -/
def exFailResult : ExecResult :=
  ⟨"ccc-a-general-001", false, [], 3, "ws", some "boom"⟩

/-! ## Claim theorems: session state machine and orchestrator callbacks -/

/-- Claim C9: `update_progress` clamps the percentage into `[0, 100]` —
`progress_percent` becomes `min(100, max(0, percent))` for every integer
`percent`, including values below 0 or above 100 — and sets
`current_activity` to the given activity. -/
theorem update_progress_clamps (s : SessionState) (now percent : Int) (activity : String) :
    (s.update_progress now percent activity).progress_percent = min 100 (max 0 percent) ∧
    0 ≤ (s.update_progress now percent activity).progress_percent ∧
    (s.update_progress now percent activity).progress_percent ≤ 100 ∧
    (s.update_progress now percent activity).current_activity = activity := by
  refine ⟨rfl, ?_, ?_, rfl⟩
  · exact le_min (by norm_num) (le_max_left 0 percent)
  · exact min_le_left 100 (max 0 percent)

/-- Claim C6, counterexample: on a COMPLETED session, `mark_started` is
neither rejected nor ignored — it moves the status backward to RUNNING — and
`terminate` moves a COMPLETED session to TERMINATED, so COMPLETED is not
terminal for the attempt. -/
theorem completed_transitions_not_rejected :
    (exCompletedState.mark_started 5).status = SessionStatus.running ∧
    SessionStatus.running ≠ SessionStatus.completed ∧
    (sessionTerminate true exCompletedState).status = SessionStatus.terminated := by
  exact ⟨rfl, by decide, rfl⟩

/-- Claim C6, amended: the exposed lifecycle operations carry no guards at
all.  `mark_started` always yields RUNNING, `mark_completed` always yields
COMPLETED/FAILED, `terminate` yields TERMINATED whenever a process was
launched (and is a no-op otherwise), and `start` drives the state to
STARTING then RUNNING (or FAILED when the launch throws) — each regardless
of the prior status.  Illegal transitions such as COMPLETED→RUNNING are
carried out rather than rejected or ignored; the forward-only discipline
exists only in the runner's call order, not in the state machine. -/
theorem session_transitions_unguarded (s : SessionState) (now pid : Int)
    (success launchOk : Bool) (errMsg prompt input : String) :
    (s.mark_started now).status = SessionStatus.running ∧
    (s.mark_completed success now).status =
      (if success then SessionStatus.completed else SessionStatus.failed) ∧
    (sessionTerminate true s).status = SessionStatus.terminated ∧
    sessionTerminate false s = s ∧
    ((sessionStart launchOk pid now errMsg prompt input s).1.status =
      if launchOk then SessionStatus.running else SessionStatus.failed) := by
  refine ⟨rfl, ?_, rfl, rfl, ?_⟩
  · cases h : s.started_at <;>
      simp [SessionState.mark_completed, SessionState.add_message, h]
  · cases launchOk <;>
      simp [sessionStart, SessionState.mark_started, SessionState.add_message]

/-- Claim C1 (code bug): a FAILED state with `should_retry()` true is already
caught by the completion branch of `_on_session_state_change` (its first
`if` tests for COMPLETED *or* FAILED), so the `elif` retry branch is dead
code: the handler dispatches to `_handle_session_completion` and
`_retry_session` is never invoked, for this concrete callback and for every
possible callback state. -/
theorem retry_branch_unreachable :
    exFailedState.should_retry = true ∧
    onSessionStateChange exFailedState = OrchestratorHandler.handleCompletion ∧
    (∀ s : SessionState, onSessionStateChange s ≠ OrchestratorHandler.retrySession) := by
  refine ⟨by decide, by decide, ?_⟩
  intro s
  unfold onSessionStateChange
  by_cases h : s.status = SessionStatus.completed ∨ s.status = SessionStatus.failed
  · simp [h]
  · rw [if_neg h, if_neg (fun hc => h (Or.inr hc.1))]
    simp

/-- Claim C3, counterexample: a session state whose `max_retries` is 5 does
not survive `to_dict`/`from_dict` — the field is absent from the serialized
dict and resets to the dataclass default 3 on load. -/
theorem round_trip_loses_max_retries :
    SessionState.from_dict (SessionState.to_dict exBudgetState) ≠ some exBudgetState := by
  decide

/-- Claim C3, amended: `to_dict`/`from_dict` round-trips every serialized
field of both snapshots — including optional/absent timestamps — but (a)
`SessionState.max_retries` is never serialized and comes back as the default
3, and (b) `OrchestratorState.notifications`/`important_events` are
truncated to their most recent 100/50 entries on save.  Equality with the
original therefore holds exactly when `max_retries = 3` and the logs are
within those bounds. -/
theorem snapshot_round_trip (s : SessionState) (o : OrchestratorState) :
    SessionState.from_dict (SessionState.to_dict s) = some { s with max_retries := 3 } ∧
    OrchestratorState.from_dict (OrchestratorState.to_dict o) =
      { o with
        notifications := lastN 100 o.notifications,
        important_events := lastN 50 o.important_events } := by
  constructor
  · have hv : sessionStatusOfValue s.status.value = some s.status := by
      cases s.status <;> rfl
    simp only [SessionState.from_dict, SessionState.to_dict, hv]
  · rfl

/-- Claim C4, counterexample: in parallel mode a task whose `_execute_task`
result reports `success = false` (no exception raised) leaves the
workflow-level success flag `True`: not every task result reports success,
yet the returned flag is `true`. -/
theorem parallel_success_ignores_task_failure :
    execute_workflow "wf" [("a", TaskOutcome.returned exFailResult)] true =
      Except.ok ⟨"wf", [("a", RecordedTask.result exFailResult)], true⟩ ∧
    ¬ (∀ e ∈ [("a", RecordedTask.result exFailResult)], recordedSuccess e.2 = true) := by
  exact ⟨rfl, by decide⟩

/-- In the sequential loop, when every already-accumulated entry reports
success, the final success flag is `true` precisely when every collected
entry reports success. -/
theorem seqLoop_success_iff (name : String) :
    ∀ (runs : List (String × TaskOutcome)) (acc : List (String × RecordedTask))
      (w : WorkflowResult),
      (∀ e ∈ acc, recordedSuccess e.2 = true) →
      seqLoop name runs acc = Except.ok w →
      (w.success = true ↔ ∀ e ∈ w.taskResults, recordedSuccess e.2 = true) := by
  intro runs
  induction runs with
  | nil =>
    intro acc w hacc hw
    simp only [seqLoop, Except.ok.injEq] at hw
    subst hw
    simpa using fun e he => hacc e he
  | cons p rest ih =>
    intro acc w hacc hw
    obtain ⟨n, o⟩ := p
    cases o with
    | raised msg => simp [seqLoop] at hw
    | returned r =>
      by_cases hr : r.success
      · rw [seqLoop, if_pos hr] at hw
        refine ih (acc ++ [(n, .result r)]) w ?_ hw
        intro e he
        rcases List.mem_append.1 he with h1 | h1
        · exact hacc e h1
        · simp only [List.mem_singleton] at h1
          subst h1
          simpa [recordedSuccess] using hr
      · rw [seqLoop, if_neg hr] at hw
        obtain rfl : (⟨name, acc ++ [(n, .result r)], false⟩ : WorkflowResult) = w :=
          by exact Except.ok.inj hw
        simp only [false_iff, not_forall]
        constructor
        · intro h; cases h
        · intro hall
          have := hall (n, .result r) (by simp)
          simp [recordedSuccess, hr] at this

/-- Claim C4, amended: the workflow success flag is mode-dependent.  In
parallel mode it is `true` iff no task raised an exception while its result
was collected — a task that completes with `success = false` leaves the flag
`true`.  In sequential (fail-fast) mode the flag is `true` iff every
collected task result reports success (an exception in sequential mode
propagates out of `execute_workflow` instead of being recorded). -/
theorem workflow_success_flag (name : String) (runs : List (String × TaskOutcome))
    (w : WorkflowResult) :
    (execute_workflow name runs true = Except.ok w →
      (w.success = true ↔ ∀ p ∈ runs, ∀ msg, p.2 ≠ TaskOutcome.raised msg)) ∧
    (execute_workflow name runs false = Except.ok w →
      (w.success = true ↔ ∀ e ∈ w.taskResults, recordedSuccess e.2 = true)) := by
  constructor
  · intro hw
    simp only [execute_workflow, if_pos, Except.ok.injEq] at hw
    subst hw
    simp only [List.all_eq_true]
    constructor
    · intro hall p hp msg hmsg
      have := hall p hp
      rw [hmsg] at this
      simp at this
    · intro hnone p hp
      cases ho : p.2 with
      | returned r => simp
      | raised msg => exact absurd ho (hnone p hp msg)
  · intro hw
    exact seqLoop_success_iff name runs [] w (by simp) hw

/-- Claim C4, witness: a sequential run with one successful task, on which the
amended theorem applies and yields a `true` success flag. -/
theorem workflow_success_flag_witness :
    execute_workflow "wf" [("a", TaskOutcome.returned ⟨"s1", true, [], 1, "ws", none⟩)] false =
      Except.ok ⟨"wf", [("a", RecordedTask.result ⟨"s1", true, [], 1, "ws", none⟩)], true⟩ ∧
    (⟨"wf", [("a", RecordedTask.result ⟨"s1", true, [], 1, "ws", none⟩)], true⟩ :
        WorkflowResult).success = true := by
  refine ⟨rfl, ?_⟩
  exact (workflow_success_flag "wf" [("a", TaskOutcome.returned ⟨"s1", true, [], 1, "ws", none⟩)]
    ⟨"wf", [("a", RecordedTask.result ⟨"s1", true, [], 1, "ws", none⟩)], true⟩).2 rfl |>.mpr
    (by decide)

/-! ## Dependency analysis: supporting lemmas -/

/-- A successful `taskMap` lookup returns a task of the set bearing the
looked-up name. -/
theorem taskMap_mem {tasks : List TaskDefinition} {n : String} {t : TaskDefinition}
    (h : taskMap tasks n = some t) : t ∈ tasks ∧ t.name = n := by
  unfold taskMap at h
  have hmem := List.mem_of_mem_getLast? h
  have := List.mem_filter.1 hmem
  exact ⟨this.1, by simpa using this.2⟩

/-- Every declared dependency edge comes from some task of the set. -/
theorem depGraph_mem {tasks : List TaskDefinition} {n d : String}
    (h : d ∈ depGraph tasks n) : ∃ t ∈ tasks, t.name = n ∧ d ∈ t.dependencies := by
  unfold depGraph at h
  cases hm : taskMap tasks n with
  | none => rw [hm] at h; cases h
  | some t =>
    rw [hm] at h
    obtain ⟨ht, hname⟩ := taskMap_mem hm
    exact ⟨t, ht, hname, h⟩

/-- A name with an outgoing dependency edge is a task name. -/
theorem depGraph_name_mem {tasks : List TaskDefinition} {n d : String}
    (h : d ∈ depGraph tasks n) : n ∈ taskNames tasks := by
  obtain ⟨t, ht, hname, _⟩ := depGraph_mem h
  exact hname ▸ List.mem_map_of_mem TaskDefinition.name ht

/-- With pairwise-distinct task names (the data-model invariant), the
last-binding-wins dict lookup finds exactly the task itself. -/
theorem taskMap_of_nodup {tasks : List TaskDefinition}
    (hnd : (taskNames tasks).Nodup) {t : TaskDefinition} (ht : t ∈ tasks) :
    taskMap tasks t.name = some t := by
  induction tasks with
  | nil => cases ht
  | cons u rest ih =>
    rw [taskNames, List.map_cons, List.nodup_cons] at hnd
    rcases List.mem_cons.1 ht with rfl | hmem
    · have hrest : rest.filter (fun x => x.name == t.name) = [] := by
        rw [List.filter_eq_nil_iff]
        intro x hx hbx
        exact hnd.1 ((by simpa using hbx) ▸ List.mem_map_of_mem TaskDefinition.name hx)
      unfold taskMap
      rw [List.filter_cons_of_pos (by simp), hrest]
      rfl
    · have hne : ¬ (u.name == t.name) = true := by
        intro hb
        exact hnd.1 ((by simpa using hb) ▸ List.mem_map_of_mem TaskDefinition.name hmem)
      unfold taskMap
      simp only [List.filter_cons]
      rw [if_neg hne]
      simpa [taskMap] using ih hnd.2 hmem

/-- With pairwise-distinct task names, the dependency graph of a task's name
is exactly its declared dependency list. -/
theorem depGraph_of_nodup {tasks : List TaskDefinition}
    (hnd : (taskNames tasks).Nodup) {t : TaskDefinition} (ht : t ∈ tasks) :
    depGraph tasks t.name = t.dependencies := by
  unfold depGraph
  rw [taskMap_of_nodup hnd ht]

/-- A placeable task has all its dependencies in `completed`. -/
theorem canExecute_deps {tasks : List TaskDefinition} {completed : List String} {n : String}
    (h : canExecute tasks completed n = true) :
    ∀ d ∈ depGraph tasks n, d ∈ completed := by
  intro d hd
  unfold canExecute at h
  rw [List.all_eq_true] at h
  exact List.elem_iff.1 (h d hd)

/-- An unplaceable task has some dependency outside `completed`. -/
theorem canExecute_false_deps {tasks : List TaskDefinition} {completed : List String} {n : String}
    (h : ¬ canExecute tasks completed n = true) :
    ∃ d ∈ depGraph tasks n, d ∉ completed := by
  unfold canExecute at h
  rw [List.all_eq_true] at h
  push_neg at h
  obtain ⟨d, hd, hc⟩ := h
  exact ⟨d, hd, fun hmem => hc (List.elem_iff.2 hmem)⟩

/-- A nonempty current phase strictly shrinks `remaining`. -/
theorem remaining_shrinks {tasks : List TaskDefinition} {completed remaining : List String}
    (h : ¬ (remaining.filter (canExecute tasks completed)).isEmpty = true) :
    (remaining.filter (fun n => !(canExecute tasks completed n))).length < remaining.length := by
  rw [List.isEmpty_iff] at h
  have : ∃ x ∈ remaining, canExecute tasks completed x = true := by
    by_contra hall
    push_neg at hall
    exact h (List.filter_eq_nil_iff.2 hall)
  obtain ⟨x, hx, hpx⟩ := this
  exact List.length_filter_lt_length_iff_exists.2 ⟨x, hx, by simp [hpx]⟩

/-- Soundness of phase construction, part 1: on success, the phases
partition `remaining` — their concatenation is a permutation of it. -/
theorem computePhasesAux_flatten_perm (tasks : List TaskDefinition) :
    ∀ (fuel : Nat) (remaining completed : List String) (phases : List (List String)),
      remaining.length ≤ fuel →
      computePhasesAux tasks fuel remaining completed = .ok phases →
      phases.flatten.Perm remaining := by
  intro fuel
  induction fuel with
  | zero =>
    intro remaining completed phases hlen heq
    have hre : remaining = [] := List.eq_nil_of_length_eq_zero (Nat.le_zero.1 hlen)
    subst hre
    rw [computePhasesAux] at heq
    simp only [List.isEmpty_nil, if_pos, Except.ok.injEq] at heq
    subst heq
    simp
  | succ fuel ih =>
    intro remaining completed phases hlen heq
    rw [computePhasesAux] at heq
    by_cases hre : remaining.isEmpty = true
    · rw [if_pos hre] at heq
      rw [List.isEmpty_iff] at hre
      subst hre
      obtain rfl : ([] : List (List String)) = phases := Except.ok.inj heq
      simp
    · rw [if_neg hre] at heq
      by_cases hpe : (remaining.filter (canExecute tasks completed)).isEmpty = true
      · rw [if_pos hpe] at heq; cases heq
      · rw [if_neg hpe] at heq
        cases hrec : computePhasesAux tasks fuel
            (remaining.filter (fun n => !(canExecute tasks completed n)))
            (completed ++ remaining.filter (canExecute tasks completed)) with
        | error e => rw [hrec] at heq; cases heq
        | ok rest =>
          rw [hrec] at heq
          obtain rfl : remaining.filter (canExecute tasks completed) :: rest = phases :=
            Except.ok.inj heq
          have hlt := remaining_shrinks hpe
          have hperm := ih (remaining.filter (fun n => !(canExecute tasks completed n)))
            (completed ++ remaining.filter (canExecute tasks completed)) rest
            (by omega) hrec
          have h2 := hperm.append_left (remaining.filter (canExecute tasks completed))
          have h3 := h2.trans (List.filter_append_perm (canExecute tasks completed) remaining)
          simpa [List.flatten_cons] using h3

/-- Soundness of phase construction, part 2: no produced phase is empty. -/
theorem computePhasesAux_ne_nil (tasks : List TaskDefinition) :
    ∀ (fuel : Nat) (remaining completed : List String) (phases : List (List String)),
      computePhasesAux tasks fuel remaining completed = .ok phases →
      ∀ ph ∈ phases, ph ≠ [] := by
  intro fuel
  induction fuel with
  | zero =>
    intro remaining completed phases heq
    rw [computePhasesAux] at heq
    by_cases hre : remaining.isEmpty = true
    · rw [if_pos hre] at heq
      obtain rfl : ([] : List (List String)) = phases := Except.ok.inj heq
      intro ph hph; cases hph
    · rw [if_neg hre] at heq
      by_cases hpe : (remaining.filter (canExecute tasks completed)).isEmpty = true
      · rw [if_pos hpe] at heq; cases heq
      · rw [if_neg hpe] at heq; cases heq
  | succ fuel ih =>
    intro remaining completed phases heq
    rw [computePhasesAux] at heq
    by_cases hre : remaining.isEmpty = true
    · rw [if_pos hre] at heq
      obtain rfl : ([] : List (List String)) = phases := Except.ok.inj heq
      intro ph hph; cases hph
    · rw [if_neg hre] at heq
      by_cases hpe : (remaining.filter (canExecute tasks completed)).isEmpty = true
      · rw [if_pos hpe] at heq; cases heq
      · rw [if_neg hpe] at heq
        cases hrec : computePhasesAux tasks fuel
            (remaining.filter (fun n => !(canExecute tasks completed n)))
            (completed ++ remaining.filter (canExecute tasks completed)) with
        | error e => rw [hrec] at heq; cases heq
        | ok rest =>
          rw [hrec] at heq
          obtain rfl : remaining.filter (canExecute tasks completed) :: rest = phases :=
            Except.ok.inj heq
          intro ph hph
          rcases List.mem_cons.1 hph with rfl | hmem
          · rw [List.isEmpty_iff] at hpe; exact hpe
          · exact ih _ _ rest hrec ph hmem

/-- Soundness of phase construction, part 3: every dependency of a task
placed in phase `i` is either already in `completed` or placed in a strictly
earlier phase. -/
theorem computePhasesAux_deps_earlier (tasks : List TaskDefinition) :
    ∀ (fuel : Nat) (remaining completed : List String) (phases : List (List String)),
      computePhasesAux tasks fuel remaining completed = .ok phases →
      ∀ (i : Nat) (hi : i < phases.length), ∀ n ∈ phases[i], ∀ d ∈ depGraph tasks n,
        d ∈ completed ∨ ∃ j, j < i ∧ ∃ (hj : j < phases.length), d ∈ phases[j] := by
  intro fuel
  induction fuel with
  | zero =>
    intro remaining completed phases heq
    rw [computePhasesAux] at heq
    by_cases hre : remaining.isEmpty = true
    · rw [if_pos hre] at heq
      obtain rfl : ([] : List (List String)) = phases := Except.ok.inj heq
      intro i hi; simp at hi
    · rw [if_neg hre] at heq
      by_cases hpe : (remaining.filter (canExecute tasks completed)).isEmpty = true
      · rw [if_pos hpe] at heq; cases heq
      · rw [if_neg hpe] at heq; cases heq
  | succ fuel ih =>
    intro remaining completed phases heq
    rw [computePhasesAux] at heq
    by_cases hre : remaining.isEmpty = true
    · rw [if_pos hre] at heq
      obtain rfl : ([] : List (List String)) = phases := Except.ok.inj heq
      intro i hi; simp at hi
    · rw [if_neg hre] at heq
      by_cases hpe : (remaining.filter (canExecute tasks completed)).isEmpty = true
      · rw [if_pos hpe] at heq; cases heq
      · rw [if_neg hpe] at heq
        cases hrec : computePhasesAux tasks fuel
            (remaining.filter (fun n => !(canExecute tasks completed n)))
            (completed ++ remaining.filter (canExecute tasks completed)) with
        | error e => rw [hrec] at heq; cases heq
        | ok rest =>
          rw [hrec] at heq
          obtain rfl : remaining.filter (canExecute tasks completed) :: rest = phases :=
            Except.ok.inj heq
          intro i hi n hn d hd
          cases i with
          | zero =>
            rw [List.getElem_cons_zero] at hn
            have hcan := (List.mem_filter.1 hn).2
            exact Or.inl (canExecute_deps hcan d hd)
          | succ i' =>
            rw [List.getElem_cons_succ] at hn
            have hi' : i' < rest.length := by
              simpa using Nat.lt_of_succ_lt_succ hi
            rcases ih _ _ rest hrec i' hi' n hn d hd with hbase | ⟨j, hji, hj, hdj⟩
            · rcases List.mem_append.1 hbase with hc | hp
              · exact Or.inl hc
              · refine Or.inr ⟨0, Nat.succ_pos i', Nat.succ_pos rest.length, ?_⟩
                rw [List.getElem_cons_zero]
                exact hp
            · refine Or.inr ⟨j + 1, Nat.succ_lt_succ hji, Nat.succ_lt_succ hj, ?_⟩
              rw [List.getElem_cons_succ]
              exact hdj

/-- Walking a relation chain that ends at `z`, every element of the chain
except `z` itself steps to some element of the tail. -/
theorem chain_mem_succ {r : String → String → Prop} :
    ∀ (l : List String) (a z : String), List.Chain r a (l ++ [z]) →
      ∀ n ∈ a :: l, ∃ m ∈ l ++ [z], r n m := by
  intro l
  induction l with
  | nil =>
    intro a z hc n hn
    rw [List.nil_append, List.chain_cons] at hc
    rcases List.mem_cons.1 hn with rfl | hn'
    · exact ⟨z, by simp, hc.1⟩
    · cases hn'
  | cons b l' ihl =>
    intro a z hc n hn
    rw [List.cons_append, List.chain_cons] at hc
    rcases List.mem_cons.1 hn with rfl | hn'
    · exact ⟨b, by simp, hc.1⟩
    · obtain ⟨m, hm, hr⟩ := ihl b z hc.2 n hn'
      refine ⟨m, ?_, hr⟩
      rcases List.mem_append.1 hm with h1 | h1
      · exact List.mem_append.2 (Or.inl (List.mem_cons_of_mem b h1))
      · exact List.mem_append.2 (Or.inr h1)

/-- Every member of a dependency cycle has a dependency that is again on the
cycle. -/
theorem IsDepCycle.succ {tasks : List TaskDefinition} {c : List String}
    (hc : IsDepCycle tasks c) : ∀ n ∈ c, ∃ m ∈ c, m ∈ depGraph tasks n := by
  cases c with
  | nil => cases hc
  | cons h t =>
    intro n hn
    obtain ⟨m, hm, hr⟩ := chain_mem_succ t h h hc n hn
    refine ⟨m, ?_, hr⟩
    rcases List.mem_append.1 hm with h1 | h1
    · exact List.mem_cons_of_mem h h1
    · rw [List.mem_singleton] at h1
      exact h1 ▸ List.mem_cons_self h t

/-- Every member of a dependency cycle is a task name. -/
theorem IsDepCycle.mem_names {tasks : List TaskDefinition} {c : List String}
    (hc : IsDepCycle tasks c) : ∀ n ∈ c, n ∈ taskNames tasks := by
  intro n hn
  obtain ⟨m, _, hr⟩ := hc.succ n hn
  exact depGraph_name_mem hr

/-- A dependency cycle is nonempty. -/
theorem IsDepCycle.ne_nil {tasks : List TaskDefinition} {c : List String}
    (hc : IsDepCycle tasks c) : c ≠ [] := by
  cases c with
  | nil => cases hc
  | cons h t => simp

/-- A dependency cycle refutes the finite-subset acyclicity predicate, tying
the two notions together. -/
theorem IsDepCycle_not_acyclic {tasks : List TaskDefinition} {c : List String}
    (hc : IsDepCycle tasks c) : ¬ Acyclic tasks := by
  intro hacyc
  have hS : c.toFinset ∈ (taskNames tasks).toFinset.powerset := by
    rw [Finset.mem_powerset]
    intro x hx
    rw [List.mem_toFinset] at hx ⊢
    exact hc.mem_names x hx
  have hne : c.toFinset.Nonempty := by
    cases hcons : c with
    | nil => exact absurd hcons hc.ne_nil
    | cons h t => exact ⟨h, by simp [hcons]⟩
  obtain ⟨n, hnS, hnd⟩ := hacyc c.toFinset hS hne
  rw [List.mem_toFinset] at hnS
  obtain ⟨m, hm, hr⟩ := hc.succ n hnS
  exact hnd m hr (List.mem_toFinset.2 hm)

/-- If a dependency cycle lives entirely inside `remaining` and touches
nothing in `completed`, phase construction ends in the cycle error, with the
whole cycle among the reported unplaceable tasks. -/
theorem computePhasesAux_error_of_cycle {tasks : List TaskDefinition} {c : List String}
    (hc : IsDepCycle tasks c) :
    ∀ (fuel : Nat) (remaining completed : List String),
      remaining.length ≤ fuel →
      (∀ n ∈ c, n ∈ remaining) →
      (∀ n ∈ c, n ∉ completed) →
      ∃ rem, computePhasesAux tasks fuel remaining completed = .error rem ∧
        ∀ n ∈ c, n ∈ rem := by
  have hhead : ∃ n, n ∈ c := by
    cases hcons : c with
    | nil => exact absurd hcons hc.ne_nil
    | cons h t => exact ⟨h, hcons ▸ List.mem_cons_self h t⟩
  intro fuel
  induction fuel with
  | zero =>
    intro remaining completed hlen hsub _
    have hre : remaining = [] := List.eq_nil_of_length_eq_zero (Nat.le_zero.1 hlen)
    obtain ⟨n, hn⟩ := hhead
    exact absurd (hsub n hn) (by simp [hre])
  | succ fuel ih =>
    intro remaining completed hlen hsub hdisj
    rw [computePhasesAux]
    by_cases hre : remaining.isEmpty = true
    · rw [List.isEmpty_iff] at hre
      obtain ⟨n, hn⟩ := hhead
      exact absurd (hsub n hn) (by simp [hre])
    · rw [if_neg hre]
      by_cases hpe : (remaining.filter (canExecute tasks completed)).isEmpty = true
      · rw [if_pos hpe]
        exact ⟨remaining, rfl, hsub⟩
      · rw [if_neg hpe]
        have hnophase : ∀ n ∈ c, canExecute tasks completed n = false := by
          intro n hn
          by_contra hcanne
          have hcan : canExecute tasks completed n = true := by
            cases hv : canExecute tasks completed n
            · exact absurd hv hcanne
            · rfl
          obtain ⟨m, hmc, hmr⟩ := hc.succ n hn
          exact hdisj m hmc (canExecute_deps hcan m hmr)
        have hsub' : ∀ n ∈ c, n ∈ remaining.filter (fun n => !(canExecute tasks completed n)) := by
          intro n hn
          exact List.mem_filter.2 ⟨hsub n hn, by simp [hnophase n hn]⟩
        have hdisj' : ∀ n ∈ c, n ∉ completed ++ remaining.filter (canExecute tasks completed) := by
          intro n hn hmem
          rcases List.mem_append.1 hmem with h1 | h1
          · exact hdisj n hn h1
          · have := (List.mem_filter.1 h1).2
            rw [hnophase n hn] at this
            cases this
        have hlt := remaining_shrinks hpe
        obtain ⟨rem, hrec, hrem⟩ := ih
          (remaining.filter (fun n => !(canExecute tasks completed n)))
          (completed ++ remaining.filter (canExecute tasks completed))
          (by omega) hsub' hdisj'
        rw [hrec]
        exact ⟨rem, rfl, hrem⟩

/-- Under acyclicity and dependency closure, phase construction never stalls:
as long as every unfinished task name is still in `remaining`, the loop ends
successfully. -/
theorem computePhasesAux_ok_of_acyclic {tasks : List TaskDefinition}
    (hacyc : Acyclic tasks) (hclosed : DepsClosed tasks) :
    ∀ (fuel : Nat) (remaining completed : List String),
      remaining.length ≤ fuel →
      (∀ n ∈ remaining, n ∈ taskNames tasks) →
      (∀ n ∈ taskNames tasks, n ∈ completed ∨ n ∈ remaining) →
      ∃ phases, computePhasesAux tasks fuel remaining completed = .ok phases := by
  intro fuel
  induction fuel with
  | zero =>
    intro remaining completed hlen _ _
    have hre : remaining = [] := List.eq_nil_of_length_eq_zero (Nat.le_zero.1 hlen)
    subst hre
    exact ⟨[], by rw [computePhasesAux]; rfl⟩
  | succ fuel ih =>
    intro remaining completed hlen hnames hcover
    rw [computePhasesAux]
    by_cases hre : remaining.isEmpty = true
    · rw [if_pos hre]
      exact ⟨[], rfl⟩
    · rw [if_neg hre]
      have hpe : ¬ (remaining.filter (canExecute tasks completed)).isEmpty = true := by
        intro hpe
        rw [List.isEmpty_iff] at hpe
        have hS : remaining.toFinset ∈ (taskNames tasks).toFinset.powerset := by
          rw [Finset.mem_powerset]
          intro x hx
          rw [List.mem_toFinset] at hx ⊢
          exact hnames x hx
        have hSne : remaining.toFinset.Nonempty := by
          rw [List.isEmpty_iff] at hre
          cases hcons : remaining with
          | nil => exact absurd hcons hre
          | cons h t => exact ⟨h, by simp [hcons]⟩
        obtain ⟨n, hnS, hnd⟩ := hacyc remaining.toFinset hS hSne
        rw [List.mem_toFinset] at hnS
        have hcant : ¬ canExecute tasks completed n = true := by
          intro hcan
          have : n ∈ remaining.filter (canExecute tasks completed) :=
            List.mem_filter.2 ⟨hnS, hcan⟩
          rw [hpe] at this
          cases this
        obtain ⟨d, hd, hdnc⟩ := canExecute_false_deps hcant
        obtain ⟨t, ht, hname, hdep⟩ := depGraph_mem hd
        have hdnames : d ∈ taskNames tasks := hclosed t ht d hdep
        rcases hcover d hdnames with h1 | h1
        · exact hdnc h1
        · exact hnd d hd (List.mem_toFinset.2 h1)
      rw [if_neg hpe]
      have hlt := remaining_shrinks hpe
      have hnames' : ∀ n ∈ remaining.filter (fun n => !(canExecute tasks completed n)),
          n ∈ taskNames tasks := by
        intro n hn
        exact hnames n (List.mem_filter.1 hn).1
      have hcover' : ∀ n ∈ taskNames tasks,
          n ∈ completed ++ remaining.filter (canExecute tasks completed) ∨
          n ∈ remaining.filter (fun n => !(canExecute tasks completed n)) := by
        intro n hn
        rcases hcover n hn with h1 | h1
        · exact Or.inl (List.mem_append.2 (Or.inl h1))
        · cases hcan : canExecute tasks completed n with
          | true =>
            exact Or.inl (List.mem_append.2 (Or.inr (List.mem_filter.2 ⟨h1, hcan⟩)))
          | false =>
            exact Or.inr (List.mem_filter.2 ⟨h1, by simp [hcan]⟩)
      obtain ⟨rest, hrec⟩ := ih
        (remaining.filter (fun n => !(canExecute tasks completed n)))
        (completed ++ remaining.filter (canExecute tasks completed))
        (by omega) hnames' hcover'
      rw [hrec]
      exact ⟨remaining.filter (canExecute tasks completed) :: rest, rfl⟩

/-- A task name always has a `taskMap` entry. -/
theorem taskMap_isSome_of_mem_names {tasks : List TaskDefinition} {n : String}
    (h : n ∈ taskNames tasks) : (taskMap tasks n).isSome = true := by
  unfold taskNames at h
  obtain ⟨t, ht, rfl⟩ := List.mem_map.1 h
  have hmem : t ∈ tasks.filter (fun x => x.name == t.name) :=
    List.mem_filter.2 ⟨ht, by simp⟩
  unfold taskMap
  rw [List.getLast?_isSome]
  intro hnil
  rw [hnil] at hmem
  cases hmem

/-- The DFS only ever extends the postorder. -/
theorem visitAux_order_prefix (g : String → List String) :
    ∀ (fuel : Nat) (name : String) (st : List String × List String),
      ∃ ext, (visitAux g fuel name st).2 = st.2 ++ ext := by
  intro fuel
  induction fuel with
  | zero => intro name st; exact ⟨[], by simp [visitAux]⟩
  | succ fuel ih =>
    intro name st
    by_cases hc : st.1.contains name = true
    · exact ⟨[], by rw [visitAux, if_pos hc, List.append_nil]⟩
    · have hfold : ∀ (l : List String) (st' : List String × List String),
          ∃ ext, (l.foldl (fun acc dep => visitAux g fuel dep acc) st').2 = st'.2 ++ ext := by
        intro l
        induction l with
        | nil => intro st'; exact ⟨[], by simp⟩
        | cons d ds ihl =>
          intro st'
          obtain ⟨e1, he1⟩ := ih d st'
          obtain ⟨e2, he2⟩ := ihl (visitAux g fuel d st')
          exact ⟨e1 ++ e2, by rw [List.foldl_cons, he2, he1, List.append_assoc]⟩
      obtain ⟨e, he⟩ := hfold (g name) (st.1 ++ [name], st.2)
      refine ⟨e ++ [name], ?_⟩
      rw [visitAux, if_neg hc]
      show ((g name).foldl (fun acc dep => visitAux g fuel dep acc)
        (st.1 ++ [name], st.2)).2 ++ [name] = st.2 ++ (e ++ [name])
      rw [he, List.append_assoc]

/-- Every name in the postorder belongs to any predicate containing the
visited roots and closed under dependency edges. -/
theorem visitAux_order_mem (g : String → List String) (S : String → Prop)
    (hg : ∀ m d, d ∈ g m → S d) :
    ∀ (fuel : Nat) (name : String) (st : List String × List String),
      S name → (∀ n ∈ st.2, S n) → ∀ n ∈ (visitAux g fuel name st).2, S n := by
  intro fuel
  induction fuel with
  | zero => intro name st _ hst n hn; exact hst n hn
  | succ fuel ih =>
    intro name st hS hst n hn
    by_cases hc : st.1.contains name = true
    · rw [visitAux, if_pos hc] at hn
      exact hst n hn
    · rw [visitAux, if_neg hc] at hn
      have hn' : n ∈ ((g name).foldl (fun acc dep => visitAux g fuel dep acc)
          (st.1 ++ [name], st.2)).2 ++ [name] := hn
      have hfold : ∀ (l : List String), (∀ d ∈ l, S d) →
          ∀ st' : List String × List String, (∀ x ∈ st'.2, S x) →
          ∀ x ∈ (l.foldl (fun acc dep => visitAux g fuel dep acc) st').2, S x := by
        intro l
        induction l with
        | nil => intro _ st' hst' x hx; exact hst' x hx
        | cons d ds ihl =>
          intro hdl st' hst' x hx
          rw [List.foldl_cons] at hx
          exact ihl (fun e he => hdl e (List.mem_cons_of_mem d he))
            (visitAux g fuel d st')
            (fun y hy => ih d st' (hdl d (List.mem_cons_self d ds)) hst' y hy) x hx
      rcases List.mem_append.1 hn' with h1 | h1
      · exact hfold (g name) (fun d hd => hg name d hd) (st.1 ++ [name], st.2) hst n h1
      · rw [List.mem_singleton] at h1
        exact h1 ▸ hS

/-- The top-level DFS fold only ever extends the postorder. -/
theorem foldl_visit_order_prefix (g : String → List String) (F : Nat) :
    ∀ (l : List TaskDefinition) (st : List String × List String),
      ∃ ext, (l.foldl (fun st task => visitAux g F task.name st) st).2 = st.2 ++ ext := by
  intro l
  induction l with
  | nil => intro st; exact ⟨[], by simp⟩
  | cons t ts ih =>
    intro st
    obtain ⟨e1, he1⟩ := visitAux_order_prefix g F t.name st
    obtain ⟨e2, he2⟩ := ih (visitAux g F t.name st)
    exact ⟨e1 ++ e2, by rw [List.foldl_cons, he2, he1, List.append_assoc]⟩

/-- On a nonempty task list, the DFS postorder is nonempty: the very first
`visit(task.name)` appends that name. -/
theorem dfsOrder_ne_nil {tasks : List TaskDefinition} (hne : tasks ≠ []) :
    dfsOrder tasks ≠ [] := by
  unfold dfsOrder
  cases tasks with
  | nil => exact absurd rfl hne
  | cons t ts =>
    rw [List.foldl_cons]
    have h1 : (visitAux (depGraph (t :: ts)) (visitFuel (t :: ts)) t.name
        (([], []) : List String × List String)).2 ≠ [] := by
      obtain ⟨F, hF⟩ : ∃ F, visitFuel (t :: ts) = F + 1 :=
        ⟨visitFuel (t :: ts) - 1, by unfold visitFuel; omega⟩
      rw [hF, visitAux, if_neg (by simp)]
      show (((depGraph (t :: ts)) t.name).foldl
        (fun acc dep => visitAux (depGraph (t :: ts)) F dep acc)
        (([] : List String) ++ [t.name], ([] : List String))).2 ++ [t.name] ≠ []
      simp
    obtain ⟨ext, hext⟩ := foldl_visit_order_prefix (depGraph (t :: ts))
      (visitFuel (t :: ts)) ts
      (visitAux (depGraph (t :: ts)) (visitFuel (t :: ts)) t.name ([], []))
    rw [hext]
    intro hcon
    rcases List.append_eq_nil.1 hcon with ⟨ha, _⟩
    exact h1 ha

/-- Under dependency closure, every name in the DFS postorder is a task
name. -/
theorem dfsOrder_mem_names {tasks : List TaskDefinition} (hclosed : DepsClosed tasks) :
    ∀ n ∈ dfsOrder tasks, n ∈ taskNames tasks := by
  have hg : ∀ m d, d ∈ depGraph tasks m → d ∈ taskNames tasks := by
    intro m d hd
    obtain ⟨t, ht, _, hdep⟩ := depGraph_mem hd
    exact hclosed t ht d hdep
  unfold dfsOrder
  have hfold : ∀ (l : List TaskDefinition) (st : List String × List String),
      (∀ t ∈ l, t ∈ tasks) → (∀ n ∈ st.2, n ∈ taskNames tasks) →
      ∀ n ∈ (l.foldl (fun st task => visitAux (depGraph tasks) (visitFuel tasks) task.name st)
        st).2, n ∈ taskNames tasks := by
    intro l
    induction l with
    | nil => intro st _ hst n hn; exact hst n hn
    | cons u us ih =>
      intro st hl hst n hn
      rw [List.foldl_cons] at hn
      refine ih (visitAux (depGraph tasks) (visitFuel tasks) u.name st)
        (fun x hx => hl x (List.mem_cons_of_mem u hx)) ?_ n hn
      exact visitAux_order_mem (depGraph tasks) (· ∈ taskNames tasks) hg
        (visitFuel tasks) u.name st
        (List.mem_map_of_mem TaskDefinition.name (hl u (List.mem_cons_self u us))) hst
  exact hfold tasks ([], []) (fun t ht => ht) (fun n hn => by cases hn)

/-- The forward pass returns normally when every postorder name has a
`task_map` entry. -/
theorem forwardPass_ok (tasks : List TaskDefinition) (g : String → List String) :
    ∀ (order : List String) (maps : List (String × Int) × List (String × Int)),
      (∀ n ∈ order, (taskMap tasks n).isSome = true) →
      ∃ res, forwardPass tasks g order maps = .ok res := by
  intro order
  induction order with
  | nil => intro maps _; exact ⟨maps, rfl⟩
  | cons name rest ih =>
    intro maps hall
    obtain ⟨es, ef⟩ := maps
    cases hm : taskMap tasks name with
    | none =>
      have := hall name (List.mem_cons_self name rest)
      rw [hm] at this
      cases this
    | some task =>
      obtain ⟨res, hres⟩ := ih
        (es ++ [(name, if (g name).isEmpty then 0
            else pyListMax ((g name).map (fun dep => lookupD ef dep 0)))],
         ef ++ [(name, (if (g name).isEmpty then 0
            else pyListMax ((g name).map (fun dep => lookupD ef dep 0))) +
            task.estimated_minutes)])
        (fun n hn => hall n (List.mem_cons_of_mem name hn))
      refine ⟨res, ?_⟩
      rw [forwardPass, hm]
      exact hres

/-- On a nonempty task list with closed dependencies, `_find_critical_path`
returns normally. -/
theorem find_critical_path_ok {tasks : List TaskDefinition}
    (hne : tasks ≠ []) (hclosed : DepsClosed tasks) :
    ∃ cp, find_critical_path tasks = .ok cp := by
  obtain ⟨⟨es, ef⟩, hfp⟩ := forwardPass_ok tasks (depGraph tasks) (dfsOrder tasks) ([], [])
    (fun n hn => taskMap_isSome_of_mem_names (dfsOrder_mem_names hclosed n hn))
  have hone : dfsOrder tasks ≠ [] := dfsOrder_ne_nil hne
  unfold find_critical_path
  rw [hfp]
  cases horder : dfsOrder tasks with
  | nil => exact absurd horder hone
  | cons n rest => exact ⟨_, rfl⟩

/-- The three-task todo-app workflow shape (api; frontend after api; tests
after both). -/
def exTasks : List TaskDefinition :=
  [⟨"api", "backend", "Create API", [], 8, 45, []⟩,
   ⟨"frontend", "frontend", "Create UI", ["api"], 7, 45, []⟩,
   ⟨"tests", "testing", "Create tests", ["api", "frontend"], 6, 30, []⟩]

/-- A two-task dependency cycle. -/
def cycTasks : List TaskDefinition :=
  [⟨"a", "backend", "A", ["b"], 5, 30, []⟩,
   ⟨"b", "frontend", "B", ["a"], 5, 30, []⟩]

/-- Claim C2, counterexample: the empty task set satisfies every hypothesis
of the claim (vacuously acyclic, closed, distinct names), yet
`analyze_dependencies` returns no phase list — `_find_critical_path`,
evaluated while building the return dict, raises `ValueError` from `max()`
over an empty sequence. -/
theorem analyze_dependencies_empty_raises :
    analyze_dependencies ([] : List TaskDefinition) =
      Except.error ⟨"ValueError", []⟩ ∧
    (taskNames ([] : List TaskDefinition)).Nodup ∧
    DepsClosed ([] : List TaskDefinition) ∧
    Acyclic ([] : List TaskDefinition) := by
  exact ⟨rfl, by decide, by decide, by decide⟩

/-- Claim C2, amended: for every *non-empty* task set with pairwise-distinct
names (the stated data-model invariant), an acyclic dependency relation, and
dependencies naming only tasks of the set, `analyze_dependencies` succeeds
with phases whose concatenation is a permutation of the task names — so each
input task appears exactly once across all phases — and every dependency of
every task is placed in a strictly earlier phase than the task itself.  (On
the empty task set the phase loop succeeds but `_find_critical_path` raises
`ValueError`, so no phase list is returned; see the counterexample.) -/
theorem analyze_dependencies_partition (tasks : List TaskDefinition)
    (hne : tasks ≠ []) (hnd : (taskNames tasks).Nodup)
    (hclosed : DepsClosed tasks) (hacyc : Acyclic tasks) :
    ∃ a, analyze_dependencies tasks = Except.ok a ∧
      a.phases.flatten.Perm (taskNames tasks) ∧
      (∀ t ∈ tasks, a.phases.flatten.count t.name = 1) ∧
      (∀ t ∈ tasks, ∀ d ∈ t.dependencies,
        ∀ (i : Nat) (hi : i < a.phases.length), t.name ∈ a.phases[i] →
          ∃ j, j < i ∧ ∃ (hj : j < a.phases.length), d ∈ a.phases[j]) := by
  have hdedup : (taskNames tasks).dedup = taskNames tasks := List.dedup_eq_self.2 hnd
  obtain ⟨phases, hok⟩ := computePhasesAux_ok_of_acyclic hacyc hclosed
    (taskNames tasks).dedup.length (taskNames tasks).dedup [] le_rfl
    (fun n hn => List.mem_dedup.1 hn)
    (fun n hn => Or.inr (List.mem_dedup.2 hn))
  obtain ⟨cp, hcp⟩ := find_critical_path_ok hne hclosed
  have hperm : phases.flatten.Perm (taskNames tasks) := by
    have := computePhasesAux_flatten_perm tasks (taskNames tasks).dedup.length
      (taskNames tasks).dedup [] phases le_rfl hok
    rwa [hdedup] at this
  refine ⟨⟨phases, phases.length, phases.map List.length, cp⟩, ?_, hperm, ?_, ?_⟩
  · unfold analyze_dependencies computePhases
    rw [hok, hcp]
  · intro t ht
    rw [hperm.count_eq]
    exact List.count_eq_one_of_mem hnd (List.mem_map_of_mem TaskDefinition.name ht)
  · intro t ht d hd i hi hmem
    have hdep : d ∈ depGraph tasks t.name := by
      rw [depGraph_of_nodup hnd ht]
      exact hd
    rcases computePhasesAux_deps_earlier tasks (taskNames tasks).dedup.length
        (taskNames tasks).dedup [] phases hok i hi t.name hmem d hdep with h1 | h1
    · cases h1
    · exact h1

/-- Claim C2, witness: the amended theorem applied to the three-task
todo-app workflow, which is non-empty with distinct names, closed
dependencies, and an acyclic dependency relation. -/
theorem analyze_dependencies_partition_witness :
    exTasks ≠ [] ∧ (taskNames exTasks).Nodup ∧ DepsClosed exTasks ∧ Acyclic exTasks ∧
    (∃ a, analyze_dependencies exTasks = Except.ok a ∧
      a.phases.flatten.Perm (taskNames exTasks) ∧
      (∀ t ∈ exTasks, a.phases.flatten.count t.name = 1) ∧
      (∀ t ∈ exTasks, ∀ d ∈ t.dependencies,
        ∀ (i : Nat) (hi : i < a.phases.length), t.name ∈ a.phases[i] →
          ∃ j, j < i ∧ ∃ (hj : j < a.phases.length), d ∈ a.phases[j])) :=
  ⟨by decide, by decide, by decide, by decide,
    analyze_dependencies_partition exTasks (by decide) (by decide) (by decide) (by decide)⟩

/-- Claim C7, counterexample: on a concrete two-task cycle the raised
exception is a `ValueError` (there is no `CyclicDependencyError` class in
the code), so the claim's stated exception type is wrong; the message does
carry the remaining (unplaceable) task names and no phase list is
returned. -/
theorem cycle_error_class_is_ValueError :
    analyze_dependencies cycTasks = Except.error ⟨"ValueError", ["a", "b"]⟩ ∧
    "ValueError" ≠ "CyclicDependencyError" := by
  exact ⟨rfl, by decide⟩

/-- Claim C7, amended: on every task set containing a dependency cycle,
`analyze_dependencies` raises a `ValueError` (not a class named
`CyclicDependencyError`, which does not exist in the code) whose message
lists the remaining unplaceable task names — including every task of the
cycle, hence at least one — and returns no partial phase list. -/
theorem analyze_dependencies_cycle_error (tasks : List TaskDefinition) (c : List String)
    (hc : IsDepCycle tasks c) :
    ∃ e, analyze_dependencies tasks = Except.error e ∧ e.exnClass = "ValueError" ∧
      (∀ n ∈ c, n ∈ e.remainingTasks) ∧ (∃ n, n ∈ c ∧ n ∈ e.remainingTasks) := by
  obtain ⟨rem, herr, hsub⟩ := computePhasesAux_error_of_cycle hc
    (taskNames tasks).dedup.length (taskNames tasks).dedup [] le_rfl
    (fun n hn => List.mem_dedup.2 (hc.mem_names n hn))
    (fun n _ h => by cases h)
  refine ⟨⟨"ValueError", rem⟩, ?_, rfl, hsub, ?_⟩
  · unfold analyze_dependencies computePhases
    rw [herr]
  · obtain ⟨n, hn⟩ : ∃ n, n ∈ c := by
      cases hcons : c with
      | nil => exact absurd hcons hc.ne_nil
      | cons h t => exact ⟨h, hcons ▸ List.mem_cons_self h t⟩
    exact ⟨n, hn, hsub n hn⟩

/-- Claim C7, witness: the amended theorem applied to the concrete two-task
cycle `a → b → a`. -/
theorem analyze_dependencies_cycle_error_witness :
    IsDepCycle cycTasks ["a", "b"] ∧
    (∃ e, analyze_dependencies cycTasks = Except.error e ∧ e.exnClass = "ValueError" ∧
      (∀ n ∈ ["a", "b"], n ∈ e.remainingTasks) ∧
      (∃ n, n ∈ ["a", "b"] ∧ n ∈ e.remainingTasks)) :=
  ⟨List.Chain.cons (by decide) (List.Chain.cons (by decide) List.Chain.nil),
    analyze_dependencies_cycle_error cycTasks ["a", "b"]
      (List.Chain.cons (by decide) (List.Chain.cons (by decide) List.Chain.nil))⟩

/-- With pairwise-distinct task names, the estimate lookup of a task's name
is its own estimate. -/
theorem estMinutes_of_nodup {tasks : List TaskDefinition}
    (hnd : (taskNames tasks).Nodup) {t : TaskDefinition} (ht : t ∈ tasks) :
    estMinutes tasks t.name = t.estimated_minutes := by
  unfold estMinutes
  rw [taskMap_of_nodup hnd ht]

/-- Folding `max` over nonnegative integers is bounded by the starting value
plus their sum. -/
theorem foldl_max_le_add_sum :
    ∀ (xs : List Int) (x : Int), 0 ≤ x → (∀ y ∈ xs, 0 ≤ y) →
      xs.foldl max x ≤ x + xs.sum := by
  intro xs
  induction xs with
  | nil => intro x _ _; simp
  | cons y ys ih =>
    intro x hx hall
    have hy : 0 ≤ y := hall y (List.mem_cons_self y ys)
    have hmax : 0 ≤ max x y := le_trans hx (le_max_left x y)
    have h1 : (y :: ys).foldl max x = ys.foldl max (max x y) := rfl
    have h2 := ih (max x y) hmax (fun z hz => hall z (List.mem_cons_of_mem y hz))
    have h3 : max x y ≤ x + y := max_le (by omega) (by omega)
    rw [h1, List.sum_cons]
    omega

/-- Python `max` of a nonempty list of nonnegative integers is at most their
sum. -/
theorem pyListMax_le_sum (l : List Int) (hne : l ≠ []) (hnn : ∀ x ∈ l, 0 ≤ x) :
    pyListMax l ≤ l.sum := by
  cases l with
  | nil => exact absurd rfl hne
  | cons x xs =>
    have hx : 0 ≤ x := hnn x (List.mem_cons_self x xs)
    have := foldl_max_le_add_sum xs x hx (fun y hy => hnn y (List.mem_cons_of_mem x hy))
    rw [List.sum_cons]
    exact this

/-- Two independent tasks with negative estimated minutes (`estimated_minutes`
is a plain Python `int`, so negative values are representable). -/
def negTasks : List TaskDefinition :=
  [⟨"a", "backend", "A", [], 5, -10, []⟩,
   ⟨"b", "backend", "B", [], 5, -10, []⟩]

/-- Claim C8, counterexample: on two independent tasks of estimated duration
−10 each, the code returns `parallel = −10 > −20 = sequential` and
`time_saved = −10 < 0`, refuting the claimed inequalities for arbitrary
integer estimates. -/
theorem estimate_total_time_negative :
    estimate_total_time negTasks = Except.ok ⟨-10, -20, -10⟩ ∧
    ¬ ((-10 : Int) ≤ -20) ∧ ¬ ((0 : Int) ≤ -10) := by
  exact ⟨rfl, by decide, by decide⟩

/-- Claim C8, amended: for every non-empty task set with distinct names,
closed dependencies, an acyclic dependency relation, and *nonnegative*
estimated minutes, `estimate_total_time` returns
`sequential_execution_minutes` equal to the sum of all estimates,
`parallel_execution_minutes` equal to the sum over phases of each phase's
maximum estimate, and `time_saved_minutes = sequential − parallel ≥ 0`, with
`parallel ≤ sequential`.  (Without the nonnegativity restriction the code
violates the inequalities, see the counterexample.) -/
theorem estimate_total_time_spec (tasks : List TaskDefinition)
    (hne : tasks ≠ []) (hnd : (taskNames tasks).Nodup)
    (hclosed : DepsClosed tasks) (hacyc : Acyclic tasks)
    (hnn : ∀ t ∈ tasks, 0 ≤ t.estimated_minutes) :
    ∃ a est, analyze_dependencies tasks = Except.ok a ∧
      estimate_total_time tasks = Except.ok est ∧
      est.sequential_execution_minutes = (tasks.map TaskDefinition.estimated_minutes).sum ∧
      est.parallel_execution_minutes =
        (a.phases.map (fun ph => pyListMax (ph.map (estMinutes tasks)))).sum ∧
      est.time_saved_minutes =
        est.sequential_execution_minutes - est.parallel_execution_minutes ∧
      est.parallel_execution_minutes ≤ est.sequential_execution_minutes ∧
      0 ≤ est.time_saved_minutes := by
  obtain ⟨phases, hok⟩ := computePhasesAux_ok_of_acyclic hacyc hclosed
    (taskNames tasks).dedup.length (taskNames tasks).dedup [] le_rfl
    (fun n hn => List.mem_dedup.1 hn)
    (fun n hn => Or.inr (List.mem_dedup.2 hn))
  have hdedup : (taskNames tasks).dedup = taskNames tasks := List.dedup_eq_self.2 hnd
  have hperm : phases.flatten.Perm (taskNames tasks) := by
    have := computePhasesAux_flatten_perm tasks (taskNames tasks).dedup.length
      (taskNames tasks).dedup [] phases le_rfl hok
    rwa [hdedup] at this
  have hnonnil := computePhasesAux_ne_nil tasks (taskNames tasks).dedup.length
    (taskNames tasks).dedup [] phases hok
  obtain ⟨cp, hcp⟩ := find_critical_path_ok hne hclosed
  have hAok : analyze_dependencies tasks =
      Except.ok ⟨phases, phases.length, phases.map List.length, cp⟩ := by
    unfold analyze_dependencies computePhases
    rw [hok, hcp]
  have hEok : estimate_total_time tasks = Except.ok
      ⟨(phases.map (fun ph => pyListMax (ph.map (estMinutes tasks)))).sum,
        (tasks.map TaskDefinition.estimated_minutes).sum,
        (tasks.map TaskDefinition.estimated_minutes).sum -
          (phases.map (fun ph => pyListMax (ph.map (estMinutes tasks)))).sum⟩ := by
    unfold estimate_total_time
    rw [hAok]
  have hmem_names : ∀ n ∈ phases.flatten, n ∈ taskNames tasks := fun n hn =>
    hperm.mem_iff.1 hn
  have hnn' : ∀ n ∈ phases.flatten, 0 ≤ estMinutes tasks n := by
    intro n hn
    obtain ⟨t, ht, hname⟩ := List.mem_map.1 (hmem_names n hn)
    rw [← hname, estMinutes_of_nodup hnd ht]
    exact hnn t ht
  have hle : (phases.map (fun ph => pyListMax (ph.map (estMinutes tasks)))).sum ≤
      (phases.map (fun ph => (ph.map (estMinutes tasks)).sum)).sum := by
    apply List.sum_le_sum
    intro ph hph
    apply pyListMax_le_sum
    · intro hmapnil
      exact hnonnil ph hph (List.map_eq_nil_iff.1 hmapnil)
    · intro x hx
      obtain ⟨n, hn, hxn⟩ := List.mem_map.1 hx
      rw [← hxn]
      exact hnn' n (List.mem_flatten.2 ⟨ph, hph, hn⟩)
  have hsum_eq : (phases.map (fun ph => (ph.map (estMinutes tasks)).sum)).sum =
      (tasks.map TaskDefinition.estimated_minutes).sum := by
    have h1 : (phases.map (fun ph => (ph.map (estMinutes tasks)).sum)).sum =
        (phases.flatten.map (estMinutes tasks)).sum := by
      rw [List.map_flatten, List.sum_flatten, List.map_map]
      rfl
    have h2 : (phases.flatten.map (estMinutes tasks)).sum =
        ((taskNames tasks).map (estMinutes tasks)).sum :=
      (hperm.map (estMinutes tasks)).sum_eq
    have h3 : ((taskNames tasks).map (estMinutes tasks)).sum =
        (tasks.map TaskDefinition.estimated_minutes).sum := by
      unfold taskNames
      rw [List.map_map]
      refine congrArg List.sum (List.map_eq_map_iff.mpr ?_)
      intro t ht
      exact estMinutes_of_nodup hnd ht
    rw [h1, h2, h3]
  refine ⟨⟨phases, phases.length, phases.map List.length, cp⟩,
    ⟨(phases.map (fun ph => pyListMax (ph.map (estMinutes tasks)))).sum,
      (tasks.map TaskDefinition.estimated_minutes).sum,
      (tasks.map TaskDefinition.estimated_minutes).sum -
        (phases.map (fun ph => pyListMax (ph.map (estMinutes tasks)))).sum⟩,
    hAok, hEok, rfl, rfl, rfl, ?_, ?_⟩
  · exact le_trans hle (le_of_eq hsum_eq)
  · have h := le_trans hle (le_of_eq hsum_eq)
    show (0 : Int) ≤ (tasks.map TaskDefinition.estimated_minutes).sum -
      (phases.map (fun ph => pyListMax (ph.map (estMinutes tasks)))).sum
    omega

/-- Claim C8, witness: the amended theorem applied to the three-task
todo-app workflow (nonnegative estimates 45/45/30). -/
theorem estimate_total_time_spec_witness :
    exTasks ≠ [] ∧ (∀ t ∈ exTasks, 0 ≤ t.estimated_minutes) ∧
    (∃ a est, analyze_dependencies exTasks = Except.ok a ∧
      estimate_total_time exTasks = Except.ok est ∧
      est.sequential_execution_minutes = (exTasks.map TaskDefinition.estimated_minutes).sum ∧
      est.parallel_execution_minutes =
        (a.phases.map (fun ph => pyListMax (ph.map (estMinutes exTasks)))).sum ∧
      est.time_saved_minutes =
        est.sequential_execution_minutes - est.parallel_execution_minutes ∧
      est.parallel_execution_minutes ≤ est.sequential_execution_minutes ∧
      0 ≤ est.time_saved_minutes) :=
  ⟨by decide, by decide,
    estimate_total_time_spec exTasks (by decide) (by decide) (by decide) (by decide) (by decide)⟩

/-- With sufficient fuel and positive chunk size, chunking partitions the
list: the chunks concatenate back to it. -/
theorem chunksAux_flatten {k : Nat} (hk : 1 ≤ k) :
    ∀ (fuel : Nat) (l : List α), l.length ≤ fuel → (chunksAux k fuel l).flatten = l := by
  intro fuel
  induction fuel with
  | zero =>
    intro l hlen
    have : l = [] := List.eq_nil_of_length_eq_zero (Nat.le_zero.1 hlen)
    subst this
    rfl
  | succ fuel ih =>
    intro l hlen
    cases l with
    | nil => rfl
    | cons x xs =>
      have hdrop : ((x :: xs).drop k).length ≤ fuel := by
        rw [List.length_drop]
        simp only [List.length_cons] at hlen ⊢
        omega
      show ((x :: xs).take k :: chunksAux k fuel ((x :: xs).drop k)).flatten = x :: xs
      rw [List.flatten_cons, ih ((x :: xs).drop k) hdrop, List.take_append_drop]

/-- Every chunk has at most `k` elements. -/
theorem chunksAux_length_le (k : Nat) :
    ∀ (fuel : Nat) (l : List α), ∀ b ∈ chunksAux k fuel l, b.length ≤ k := by
  intro fuel
  induction fuel with
  | zero =>
    intro l b hb
    cases l with
    | nil => cases hb
    | cons x xs => cases hb
  | succ fuel ih =>
    intro l b hb
    cases l with
    | nil => cases hb
    | cons x xs =>
      rcases List.mem_cons.1 hb with rfl | hmem
      · exact List.length_take_le k (x :: xs)
      · exact ih ((x :: xs).drop k) b hmem


/-- For positive `max_parallel`, a phase's batches concatenate back to its
(task, prompt) pairs. -/
theorem phaseBatches_flatten {k : Nat} (hk : 1 ≤ k) (pairs : List (TaskDefinition × String)) :
    (phaseBatches k pairs).flatten = pairs := by
  unfold phaseBatches pyChunks
  by_cases hpe : (pairs.take k).isEmpty = true
  · rw [List.isEmpty_iff] at hpe
    have hpairs : pairs = [] := by
      cases pairs with
      | nil => rfl
      | cons x xs =>
        obtain ⟨k', rfl⟩ : ∃ k', k = k' + 1 := ⟨k - 1, by omega⟩
        simp at hpe
    subst hpairs
    simp [List.take_nil, List.drop_nil, chunksAux]
  · rw [if_neg hpe]
    have hsplit : ([pairs.take k] ++ chunksAux k (pairs.drop k).length (pairs.drop k)).flatten
        = pairs.take k ++ (chunksAux k (pairs.drop k).length (pairs.drop k)).flatten := by
      rw [List.singleton_append, List.flatten_cons]
    rw [hsplit, chunksAux_flatten hk (pairs.drop k).length (pairs.drop k) le_rfl,
      List.take_append_drop]

/-- Every batch of a phase has at most `max_parallel` entries. -/
theorem phaseBatches_length_le (k : Nat) (pairs : List (TaskDefinition × String)) :
    ∀ b ∈ phaseBatches k pairs, b.length ≤ k := by
  intro b hb
  unfold phaseBatches pyChunks at hb
  rcases List.mem_append.1 hb with h1 | h1
  · by_cases hpe : (pairs.take k).isEmpty = true
    · rw [if_pos hpe] at h1
      cases h1
    · rw [if_neg hpe] at h1
      rw [List.mem_singleton] at h1
      subst h1
      exact List.length_take_le k pairs
  · exact chunksAux_length_le k (pairs.drop k).length (pairs.drop k) b h1

/-- `filterMap` with a lookup that returns each element itself is the
identity. -/
theorem filterMap_some_id {α : Type} (f : α → Option α) :
    ∀ (l : List α), (∀ a ∈ l, f a = some a) → l.filterMap f = l := by
  intro l
  induction l with
  | nil => intro _; rfl
  | cons x xs ih =>
    intro h
    rw [List.filterMap_cons, h x (List.mem_cons_self x xs),
      ih (fun a ha => h a (List.mem_cons_of_mem x ha))]

/-- With pairwise-distinct task names, looking all names back up through the
dict recovers exactly the task list. -/
theorem names_filterMap_taskMap {tasks : List TaskDefinition}
    (hnd : (taskNames tasks).Nodup) :
    (taskNames tasks).filterMap (taskMap tasks) = tasks := by
  unfold taskNames
  rw [List.filterMap_map]
  exact filterMap_some_id _ tasks (fun t ht => taskMap_of_nodup hnd ht)

/-- The first components of one phase's batched pairs are a permutation of
the phase's tasks. -/
theorem phaseBatches_fst_perm {k : Nat} (hk : 1 ≤ k) (tasks : List TaskDefinition)
    (ph : List String) :
    (((phaseBatches k ((sortByPriorityDesc (ph.filterMap (taskMap tasks))).map
        (fun t => (t, createTaskPrompt t)))).flatten.map Prod.fst)).Perm
      (ph.filterMap (taskMap tasks)) := by
  rw [phaseBatches_flatten hk, List.map_map]
  have hcomp : (Prod.fst ∘ fun t : TaskDefinition => (t, createTaskPrompt t)) = id := rfl
  rw [hcomp, List.map_id]
  exact List.mergeSort_perm (ph.filterMap (taskMap tasks)) _

/-- Across all phases, the first components of the batched pairs are a
permutation of the phases' looked-up tasks. -/
theorem batches_fst_perm {k : Nat} (hk : 1 ≤ k) (tasks : List TaskDefinition) :
    ∀ phases : List (List String),
      ((((phases.map (fun phase =>
          phaseBatches k ((sortByPriorityDesc (phase.filterMap (taskMap tasks))).map
            (fun t => (t, createTaskPrompt t))))).flatten).flatten.map Prod.fst)).Perm
        ((phases.map (fun ph => ph.filterMap (taskMap tasks))).flatten) := by
  intro phases
  induction phases with
  | nil => simp
  | cons ph rest ih =>
    rw [List.map_cons, List.flatten_cons, List.flatten_append, List.map_append,
      List.map_cons, List.flatten_cons]
    exact (phaseBatches_fst_perm hk tasks ph).append ih

/-- Claim C10, counterexample: the empty task list is acyclic with closed
dependencies and `max_parallel = 2 ≥ 1`, yet `distribute_tasks` returns no
batches — it propagates the `ValueError` that `analyze_dependencies` raises
from `_find_critical_path` (`max()` over an empty sequence). -/
theorem distribute_tasks_empty_raises :
    distribute_tasks ([] : List TaskDefinition) 2 =
      Except.error ⟨"ValueError", []⟩ ∧
    (1 : Nat) ≤ 2 ∧
    (taskNames ([] : List TaskDefinition)).Nodup ∧
    DepsClosed ([] : List TaskDefinition) ∧
    Acyclic ([] : List TaskDefinition) := by
  exact ⟨rfl, by decide, by decide, by decide, by decide⟩

/-- Claim C10, amended: for every *non-empty* task set with distinct names,
closed dependencies and an acyclic dependency relation, and every
`max_parallel ≥ 1`, `distribute_tasks` returns batches in which every batch
holds at most `max_parallel` (task, prompt) pairs and every input task
appears in exactly one batch (the batched tasks are a permutation of the
input, each counted once).  (On the empty task list `distribute_tasks`
propagates the `ValueError` raised inside `analyze_dependencies` by
`_find_critical_path`; see the counterexample.) -/
theorem distribute_tasks_partition (tasks : List TaskDefinition) (max_parallel : Nat)
    (hne : tasks ≠ []) (hnd : (taskNames tasks).Nodup)
    (hclosed : DepsClosed tasks) (hacyc : Acyclic tasks)
    (hmp : 1 ≤ max_parallel) :
    ∃ batches, distribute_tasks tasks max_parallel = Except.ok batches ∧
      (∀ b ∈ batches, b.length ≤ max_parallel) ∧
      (batches.flatten.map Prod.fst).Perm tasks ∧
      (∀ t ∈ tasks, (batches.flatten.map Prod.fst).count t = 1) := by
  obtain ⟨phases, hok⟩ := computePhasesAux_ok_of_acyclic hacyc hclosed
    (taskNames tasks).dedup.length (taskNames tasks).dedup [] le_rfl
    (fun n hn => List.mem_dedup.1 hn)
    (fun n hn => Or.inr (List.mem_dedup.2 hn))
  have hdedup : (taskNames tasks).dedup = taskNames tasks := List.dedup_eq_self.2 hnd
  have hperm : phases.flatten.Perm (taskNames tasks) := by
    have := computePhasesAux_flatten_perm tasks (taskNames tasks).dedup.length
      (taskNames tasks).dedup [] phases le_rfl hok
    rwa [hdedup] at this
  obtain ⟨cp, hcp⟩ := find_critical_path_ok hne hclosed
  have hAok : analyze_dependencies tasks =
      Except.ok ⟨phases, phases.length, phases.map List.length, cp⟩ := by
    unfold analyze_dependencies computePhases
    rw [hok, hcp]
  have hDok : distribute_tasks tasks max_parallel = Except.ok
      ((phases.map (fun phase =>
        phaseBatches max_parallel ((sortByPriorityDesc (phase.filterMap (taskMap tasks))).map
          (fun t => (t, createTaskPrompt t))))).flatten) := by
    unfold distribute_tasks
    rw [hAok]
  have hbatch := batches_fst_perm hmp tasks phases
  have h2 : ((phases.map (fun ph => ph.filterMap (taskMap tasks))).flatten).Perm tasks := by
    rw [← List.filterMap_flatten]
    have := hperm.filterMap (taskMap tasks)
    rwa [names_filterMap_taskMap hnd] at this
  have hfull := hbatch.trans h2
  refine ⟨_, hDok, ?_, hfull, ?_⟩
  · intro b hb
    obtain ⟨gl, hgl, hbgl⟩ := List.mem_flatten.1 hb
    obtain ⟨ph, _, hglph⟩ := List.mem_map.1 hgl
    rw [← hglph] at hbgl
    exact phaseBatches_length_le max_parallel _ b hbgl
  · intro t ht
    rw [hfull.count_eq]
    exact List.count_eq_one_of_mem (List.Nodup.of_map TaskDefinition.name hnd) ht

/-- Claim C10, witness: the amended theorem applied to the non-empty
three-task todo-app workflow with `max_parallel = 2`. -/
theorem distribute_tasks_partition_witness :
    exTasks ≠ [] ∧ (taskNames exTasks).Nodup ∧ 1 ≤ 2 ∧
    (∃ batches, distribute_tasks exTasks 2 = Except.ok batches ∧
      (∀ b ∈ batches, b.length ≤ 2) ∧
      (batches.flatten.map Prod.fst).Perm exTasks ∧
      (∀ t ∈ exTasks, (batches.flatten.map Prod.fst).count t = 1)) :=
  ⟨by decide, by decide, by decide,
    distribute_tasks_partition exTasks 2 (by decide) (by decide) (by decide) (by decide)
      (by decide)⟩

/-! ## Orchestrator aggregate-state lemmas -/

/-- Replaying events appends exactly the successful terminal session ids to
`completed_sessions`. -/
theorem runOrch_completedIds :
    ∀ (events : List OrchEvent) (st : OrchTracking),
      (runOrch st events).completedIds = st.completedIds ++ events.filterMap (termOf true) := by
  intro events
  induction events with
  | nil => intro st; simp [runOrch]
  | cons e rest ih =>
    intro st
    cases e with
    | create tn comp =>
      rw [runOrch, ih]
      simp [stepOrch, termOf, List.filterMap_cons]
    | terminal sid b =>
      rw [runOrch, ih]
      cases b <;> simp [stepOrch, termOf, List.filterMap_cons]

/-- Replaying events appends exactly the failed terminal session ids to
`failed_sessions`. -/
theorem runOrch_failedIds :
    ∀ (events : List OrchEvent) (st : OrchTracking),
      (runOrch st events).failedIds = st.failedIds ++ events.filterMap (termOf false) := by
  intro events
  induction events with
  | nil => intro st; simp [runOrch]
  | cons e rest ih =>
    intro st
    cases e with
    | create tn comp =>
      rw [runOrch, ih]
      simp [stepOrch, termOf, List.filterMap_cons]
    | terminal sid b =>
      rw [runOrch, ih]
      cases b <;> simp [stepOrch, termOf, List.filterMap_cons]

/-- The session dict only grows. -/
theorem runOrch_known_mono :
    ∀ (events : List OrchEvent) (st : OrchTracking) (s : String),
      s ∈ st.knownSessions → s ∈ (runOrch st events).knownSessions := by
  intro events
  induction events with
  | nil => intro st s hs; exact hs
  | cons e rest ih =>
    intro st s hs
    cases e with
    | create tn comp =>
      rw [runOrch]
      exact ih _ s (List.mem_append.2 (Or.inl hs))
    | terminal sid b =>
      rw [runOrch]
      cases b <;> exact ih _ s hs

/-- `active_sessions` receives exactly the same appends as the session dict
and is never pruned, so it stays equal to the set of all known sessions. -/
theorem runOrch_active_eq :
    ∀ (events : List OrchEvent) (st : OrchTracking),
      st.active = st.knownSessions →
      (runOrch st events).active = (runOrch st events).knownSessions := by
  intro events
  induction events with
  | nil => intro st h; exact h
  | cons e rest ih =>
    intro st h
    cases e with
    | create tn comp =>
      rw [runOrch]
      exact ih _ (by simp [stepOrch, h])
    | terminal sid b =>
      rw [runOrch]
      cases b <;> exact ih _ (by simp [stepOrch, h])

/-- On an admissible trace, every terminal session id is a known session. -/
theorem runOrch_terminal_sub_known :
    ∀ (events : List OrchEvent) (st : OrchTracking),
      validAux st events = true →
      (∀ s ∈ st.completedIds ++ st.failedIds, s ∈ st.knownSessions) →
      ∀ s ∈ (runOrch st events).completedIds ++ (runOrch st events).failedIds,
        s ∈ (runOrch st events).knownSessions := by
  intro events
  induction events with
  | nil => intro st _ hinv s hs; exact hinv s hs
  | cons e rest ih =>
    intro st hv hinv s hs
    cases e with
    | create tn comp =>
      rw [validAux] at hv
      rw [runOrch] at hs ⊢
      refine ih _ hv ?_ s hs
      intro x hx
      exact List.mem_append.2 (Or.inl (hinv x (by simpa [stepOrch] using hx)))
    | terminal sid b =>
      rw [validAux, Bool.and_eq_true] at hv
      have hsid : sid ∈ st.knownSessions := List.elem_iff.1 hv.1
      rw [runOrch] at hs ⊢
      refine ih _ hv.2 ?_ s hs
      intro x hx
      cases b with
      | true =>
        simp only [stepOrch] at hx ⊢
        rcases List.mem_append.1 hx with h1 | h1
        · rcases List.mem_append.1 h1 with h2 | h2
          · exact hinv x (List.mem_append.2 (Or.inl h2))
          · rw [List.mem_singleton] at h2
            exact h2 ▸ hsid
        · exact hinv x (List.mem_append.2 (Or.inr h1))
      | false =>
        simp only [stepOrch] at hx ⊢
        rcases List.mem_append.1 hx with h1 | h1
        · exact hinv x (List.mem_append.2 (Or.inl h1))
        · rcases List.mem_append.1 h1 with h2 | h2
          · exact hinv x (List.mem_append.2 (Or.inr h2))
          · rw [List.mem_singleton] at h2
            exact h2 ▸ hsid

/-- Terminal ids with a given flag are among all terminal ids. -/
theorem mem_filterMap_termOf_sub :
    ∀ (events : List OrchEvent) (b : Bool) (s : String),
      s ∈ events.filterMap (termOf b) → s ∈ events.filterMap termSid := by
  intro events
  induction events with
  | nil => intro b s hs; cases hs
  | cons e rest ih =>
    intro b s hs
    cases e with
    | create tn comp =>
      rw [List.filterMap_cons] at hs ⊢
      exact ih b s hs
    | terminal sid b' =>
      rw [List.filterMap_cons] at hs ⊢
      simp only [termOf, termSid] at hs ⊢
      by_cases hb : (b' == b) = true
      · rw [if_pos hb] at hs
        rcases List.mem_cons.1 hs with rfl | hmem
        · exact List.mem_cons_self s _
        · exact List.mem_cons_of_mem sid (ih b s hmem)
      · rw [if_neg hb] at hs
        exact List.mem_cons_of_mem sid (ih b s hs)

/-- When each session terminates at most once, no session id is reported
both completed and failed. -/
theorem termOf_disjoint :
    ∀ (events : List OrchEvent),
      (events.filterMap termSid).Nodup →
      ∀ s, s ∈ events.filterMap (termOf true) → s ∈ events.filterMap (termOf false) → False := by
  intro events
  induction events with
  | nil => intro _ s hs _; cases hs
  | cons e rest ih =>
    intro hnd s hT hF
    cases e with
    | create tn comp =>
      rw [List.filterMap_cons] at hnd hT hF
      exact ih hnd s hT hF
    | terminal sid b =>
      rw [List.filterMap_cons] at hnd hT hF
      simp only [termSid] at hnd
      rw [List.nodup_cons] at hnd
      simp only [termOf] at hT hF
      cases b with
      | true =>
        rw [if_pos (by decide)] at hT
        rw [if_neg (by decide)] at hF
        rcases List.mem_cons.1 hT with rfl | hmem
        · exact hnd.1 (mem_filterMap_termOf_sub rest false s hF)
        · exact ih hnd.2 s hmem hF
      | false =>
        rw [if_neg (by decide)] at hT
        rw [if_pos (by decide)] at hF
        rcases List.mem_cons.1 hF with rfl | hmem
        · exact hnd.1 (mem_filterMap_termOf_sub rest true s hT)
        · exact ih hnd.2 s hT hmem

/-- One session created and completed: the admissible trace of the C5
scenario. -/
def exEvents : List OrchEvent :=
  [OrchEvent.create "a" "b", OrchEvent.terminal "ccc-a-b-001" true]

/-- Claim C5, counterexample: after creating one session and delivering its
COMPLETED callback — an admissible sequence of `create_session` and
completion callbacks — the session id sits in `completed_sessions` *and*
still in `active_sessions` (`_handle_session_completion` never removes it),
so the collections are not disjoint and the id was not removed from the
active set. -/
theorem completed_session_still_active :
    ValidTrace exEvents ∧
    (runOrch initOrch exEvents).active = ["ccc-a-b-001"] ∧
    (runOrch initOrch exEvents).completedIds = ["ccc-a-b-001"] ∧
    "ccc-a-b-001" ∈ (runOrch initOrch exEvents).active ∧
    "ccc-a-b-001" ∈ (runOrch initOrch exEvents).completedIds := by
  exact ⟨by decide, rfl, rfl, by decide, by decide⟩

/-- Claim C5, amended: in every reachable orchestrator state (any admissible
sequence of `create_session` calls and terminal callbacks, each session
terminating at most once), `completed_sessions` and `failed_sessions` are
disjoint from each other and, together with `active_sessions`, contain only
known session ids — but, contrary to the claim, a session id moved to
`completed_sessions` or `failed_sessions` is never removed from
`active_sessions`: the active list equals the full list of known sessions,
so every terminal session id still appears in it. -/
theorem orchestrator_id_sets (events : List OrchEvent) (h : ValidTrace events) :
    (∀ s ∈ (runOrch initOrch events).completedIds, s ∉ (runOrch initOrch events).failedIds) ∧
    (∀ s, (s ∈ (runOrch initOrch events).active ∨
        s ∈ (runOrch initOrch events).completedIds ∨
        s ∈ (runOrch initOrch events).failedIds) →
      s ∈ (runOrch initOrch events).knownSessions) ∧
    (runOrch initOrch events).active = (runOrch initOrch events).knownSessions ∧
    (∀ s, (s ∈ (runOrch initOrch events).completedIds ∨
        s ∈ (runOrch initOrch events).failedIds) →
      s ∈ (runOrch initOrch events).active) := by
  obtain ⟨hva, hnd⟩ := h
  have hC := runOrch_completedIds events initOrch
  have hF := runOrch_failedIds events initOrch
  have hactive : (runOrch initOrch events).active = (runOrch initOrch events).knownSessions :=
    runOrch_active_eq events initOrch rfl
  have hterm := runOrch_terminal_sub_known events initOrch hva (by intro s hs; cases hs)
  refine ⟨?_, ?_, hactive, ?_⟩
  · intro s hsC hsF
    rw [hC] at hsC
    rw [hF] at hsF
    simp only [initOrch, List.nil_append] at hsC hsF
    exact termOf_disjoint events hnd s hsC hsF
  · intro s hs
    rcases hs with h1 | h1 | h1
    · rw [hactive] at h1; exact h1
    · exact hterm s (List.mem_append.2 (Or.inl h1))
    · exact hterm s (List.mem_append.2 (Or.inr h1))
  · intro s hs
    rw [hactive]
    rcases hs with h1 | h1
    · exact hterm s (List.mem_append.2 (Or.inl h1))
    · exact hterm s (List.mem_append.2 (Or.inr h1))

/-- Claim C5, witness: the amended theorem applied to the concrete
one-session create/complete trace. -/
theorem orchestrator_id_sets_witness :
    ValidTrace exEvents ∧
    (∀ s ∈ (runOrch initOrch exEvents).completedIds,
      s ∉ (runOrch initOrch exEvents).failedIds) ∧
    (runOrch initOrch exEvents).active = (runOrch initOrch exEvents).knownSessions :=
  ⟨by decide, (orchestrator_id_sets exEvents (by decide)).1,
    (orchestrator_id_sets exEvents (by decide)).2.2.1⟩
